import Mathlib

/-!
Shallow embedding of the xrpd_parser package (value.py, atom.py, structure.py,
measurement.py, utils.py, main.py) and proofs about the embedded parser.

Conventions of the embedding:
* Python `float` is modelled exactly by `PyFloat`, an unreduced fraction
  `num / den` of an integer numerator and a natural denominator.  All numeric
  literals appearing in the parsed files are decimal, so their float values are
  represented exactly; no IEEE rounding is modelled.
* Python exceptions are modelled by the error type `Err` together with the
  result type `Res`; a raised exception is an `Res.err` value that propagates
  through the monadic bind exactly like Python exception propagation.
* The regular expressions of the source are embedded as executable matchers on
  `List Char`.  The anchored, alternation-free regexes of value.py,
  measurement.py and structure.py are embedded as deterministic matchers
  (greedy matching is deterministic for them because no quantified
  subexpression can yield characters acceptable to its continuation; this is
  argued at each matcher).  ATOM_REGEX of atom.py genuinely backtracks, so it
  is embedded through a small nondeterministic matching monad `RxM` that
  enumerates candidate matches in the backtracking preference order of Python's
  `re` module; `re.match` corresponds to taking the head of the enumeration.
* Character classes are interpreted over ASCII, which covers every string the
  source grammar itself produces or inspects.
-/

namespace Xrpd

/-- Python `\s` (ASCII range): space, tab, newline, carriage return,
vertical tab, form feed. -/
def isSpaceC (c : Char) : Bool :=
  c = ' ' || c = '\t' || c = '\n' || c = '\r' || c = '\x0b' || c = '\x0c'

/-- `hasPrefixL p l` holds iff the character list `p` is a prefix of `l`. -/
def hasPrefixL : List Char → List Char → Bool
  | [], _ => true
  | _ :: _, [] => false
  | c :: cs, d :: ds => c = d && hasPrefixL cs ds

/-- Python `str.strip()`: drop leading and trailing whitespace. -/
def pyStrip (l : List Char) : List Char :=
  ((l.dropWhile isSpaceC).reverse.dropWhile isSpaceC).reverse

/-- Python `str.split(sep)` for a one-character separator: split at every
occurrence, keeping empty pieces. -/
def splitOnChar (sep : Char) (l : List Char) : List (List Char) :=
  l.foldr
    (fun c acc =>
      match acc with
      | [] => [[c]]
      | h :: t => if c = sep then [] :: h :: t else (c :: h) :: t)
    [[]]

/-- Python `str.split(maxsplit=1)`: split off the first whitespace-delimited
token; the remainder keeps its trailing (but not leading) whitespace. -/
def splitMax1 (l : List Char) : List (List Char) :=
  match l.dropWhile isSpaceC with
  | [] => []
  | c :: rest =>
    let tok := (c :: rest).takeWhile (fun x => !isSpaceC x)
    let r := ((c :: rest).drop tok.length).dropWhile isSpaceC
    if r = [] then [tok] else [tok, r]

/-- Worker for `pySplitWs`; the fuel is an upper bound on the number of
tokens, which is at most the length of the input since every round consumes
at least one character. -/
def pySplitWsF : Nat → List Char → List (List Char)
  | 0, _ => []
  | fuel + 1, l =>
    match l.dropWhile isSpaceC with
    | [] => []
    | c :: rest =>
      let tok := (c :: rest).takeWhile (fun x => !isSpaceC x)
      tok :: pySplitWsF fuel ((c :: rest).drop tok.length)

/-- Python `str.split()` with no arguments: whitespace-run-separated tokens,
empty pieces dropped. -/
def pySplitWs (l : List Char) : List (List Char) :=
  pySplitWsF l.length l

/-- Value of a digit string as a natural number (Python `int` / `float` of a
digit-only literal). -/
def natOfDigits (l : List Char) : Nat :=
  l.foldl (fun a c => 10 * a + (c.toNat - 48)) 0

/-- Exact model of the Python floats produced by the parser: the unreduced
fraction `num / den`.  All literals in scope are decimal, so no rounding is
involved. -/
structure PyFloat where
  num : Int
  den : Nat
deriving DecidableEq

/-- The exceptions raised by the parser.  `parsingError`, `missingInformation`
and `duplicatedParameter` model the classes of utils.py (each carries the same
payload the class stores); `valueError` models Python's built-in `ValueError`
with its message; `indexError` models an `IndexError` from list indexing. -/
inductive Err where
  | parsingError (strToParse : String)
  | missingInformation (missing : String)
  | duplicatedParameter (param : String)
  | valueError (msg : String)
  | indexError
deriving DecidableEq

/-- `true` exactly on the `ParsingError` class of utils.py. -/
def Err.isParsingError : Err → Bool
  | .parsingError _ => true
  | _ => false

/-- Result of a Python call that may raise: either a value or a propagating
exception. -/
inductive Res (α : Type) where
  | ok (a : α)
  | err (e : Err)
deriving DecidableEq

instance : Monad Res where
  pure a := .ok a
  bind x f := match x with | .ok a => f a | .err e => .err e

/-! ## value.py -/

/-- The pieces of one match of `NUMERIC_REGEX`
`([+-]?([0-9]*[.])?[0-9]+(e[+-]\d+)?)`: optional sign, optional
digits-then-dot group, mandatory digit run, optional exponent
(sign character and digit run). -/
structure NumLit where
  sgn : Option Char
  intPart : Option (List Char)
  mainDigits : List Char
  exponent : Option (Char × List Char)
deriving DecidableEq

/-- Well-formedness of a `NumLit`: exactly the strings `NUMERIC_REGEX`
generates. -/
def numWF (n : NumLit) : Prop :=
  (∀ c ∈ n.sgn, c = '+' ∨ c = '-') ∧
  (∀ ds ∈ n.intPart, ∀ c ∈ ds, c.isDigit = true) ∧
  (n.mainDigits ≠ [] ∧ ∀ c ∈ n.mainDigits, c.isDigit = true) ∧
  (∀ p ∈ n.exponent, (p.1 = '+' ∨ p.1 = '-') ∧ p.2 ≠ [] ∧ ∀ c ∈ p.2, c.isDigit = true)

def sgnRender : Option Char → List Char
  | none => []
  | some c => [c]

def ipRender : Option (List Char) → List Char
  | none => []
  | some ds => ds ++ ['.']

def exRender : Option (Char × List Char) → List Char
  | none => []
  | some (c, ds) => 'e' :: c :: ds

/-- The text a `NumLit` stands for. -/
def renderNum (n : NumLit) : List Char :=
  sgnRender n.sgn ++ ipRender n.intPart ++ n.mainDigits ++ exRender n.exponent

/-- Python `float` of the literal a `NumLit` denotes, as an exact fraction. -/
def pyFloatOfNum (n : NumLit) : PyFloat :=
  let mant : Nat :=
    match n.intPart with
    | none => natOfDigits n.mainDigits
    | some ds => natOfDigits ds * 10 ^ n.mainDigits.length + natOfDigits n.mainDigits
  let den0 : Nat := match n.intPart with | none => 1 | some _ => 10 ^ n.mainDigits.length
  let signed : Int := if n.sgn = some '-' then -(mant : Int) else (mant : Int)
  match n.exponent with
  | none => ⟨signed, den0⟩
  | some (c, ds) =>
      if c = '-' then ⟨signed, den0 * 10 ^ natOfDigits ds⟩
      else ⟨signed * 10 ^ natOfDigits ds, den0⟩

/-- Matcher for the optional exponent `(e[+-]\d+)?` of `NUMERIC_REGEX`.
Returns the captured exponent (if any) and the rest of the input.  The digit
run is taken greedily; a bare `e` not followed by a sign and a digit leaves
the input untouched (group absent). -/
def parseExpC (l : List Char) : Option (Char × List Char) × List Char :=
  match l with
  | 'e' :: c :: rest =>
    if c = '+' || c = '-' then
      if rest.takeWhile Char.isDigit = [] then (none, 'e' :: c :: rest)
      else (some (c, rest.takeWhile Char.isDigit),
            rest.drop (rest.takeWhile Char.isDigit).length)
    else (none, 'e' :: c :: rest)
  | l' => (none, l')

/-- Matcher for `NUMERIC_REGEX` `([+-]?([0-9]*[.])?[0-9]+(e[+-]\d+)?)`,
anchored at the start of `l`; returns the captured pieces and the rest.
Greedy matching is deterministic here in every context the regex is used in
(VALUE_REGEX): each backtracking variant leaves the rest of the input starting
with a digit, `.`, `e`, `+` or `-`, which no continuation of the surrounding
regex (backquote, `[\s_]`, end of input) accepts; the one live backtrack —
`([0-9]*[.])` matched but no digit follows the dot — is carried out
explicitly. -/
def parseNumTail (sgn : Option Char) (l1 : List Char) : Option (NumLit × List Char) :=
  match l1.drop (l1.takeWhile Char.isDigit).length with
  | '.' :: l3 =>
    if l3.takeWhile Char.isDigit = [] then
      if l1.takeWhile Char.isDigit = [] then none
      else some (⟨sgn, none, l1.takeWhile Char.isDigit, none⟩, '.' :: l3)
    else
      some (⟨sgn, some (l1.takeWhile Char.isDigit), l3.takeWhile Char.isDigit,
             (parseExpC (l3.drop (l3.takeWhile Char.isDigit).length)).1⟩,
            (parseExpC (l3.drop (l3.takeWhile Char.isDigit).length)).2)
  | l2 =>
    if l1.takeWhile Char.isDigit = [] then none
    else
      some (⟨sgn, none, l1.takeWhile Char.isDigit, (parseExpC l2).1⟩, (parseExpC l2).2)

def parseNumC (l : List Char) : Option (NumLit × List Char) :=
  match l with
  | c :: rest =>
    if c = '+' || c = '-' then parseNumTail (some c) rest
    else parseNumTail none (c :: rest)
  | [] => parseNumTail none []

/-- Matcher for `(.*)$` of VALUE_REGEX: `.` does not match a newline and `$`
matches at the end of the string or just before a terminal newline. -/
def matchDotStarEnd (l : List Char) : Option (List Char) :=
  if l.all (fun c => c ≠ '\n') then some l
  else if l.getLast? = some '\n' && l.dropLast.all (fun c => c ≠ '\n') then some l.dropLast
  else none

/-- Matcher for VALUE_REGEX of value.py:
`^(@\s+)?NUM(`_NUM)?([\s_](.*))?$` with NUM = NUMERIC_REGEX.  Returns
(group 1 whitespace, value NumLit, error NumLit, group 10 trailing text).
Greediness is deterministic: after `@`, `\s+` is taken maximally (a shorter
run would leave a space where NUM must start); the value NUM cannot donate
characters to the error/trailing groups (see `parseNumC`); the error group is
taken when a backquote follows, and the trailing group when a space or
underscore follows — the three follower sets are disjoint. -/
def matchValueEnd (fit : Option (List Char)) (v : NumLit) (errN : Option NumLit)
    (l3 : List Char) :
    Option (Option (List Char) × NumLit × Option NumLit × Option (List Char)) :=
  match l3 with
  | [] => some (fit, v, errN, none)
  | c :: rest =>
    if isSpaceC c || c = '_' then
      match matchDotStarEnd rest with
      | some body => some (fit, v, errN, some body)
      | none => none
    else none

def matchValueErr (fit : Option (List Char)) (v : NumLit) (l2 : List Char) :
    Option (Option (List Char) × NumLit × Option NumLit × Option (List Char)) :=
  match l2 with
  | '`' :: '_' :: r =>
    match parseNumC r with
    | some (e, r') => matchValueEnd fit v (some e) r'
    | none => matchValueEnd fit v none l2
  | _ => matchValueEnd fit v none l2

def matchValueNum (fit : Option (List Char)) (l1 : List Char) :
    Option (Option (List Char) × NumLit × Option NumLit × Option (List Char)) :=
  match parseNumC l1 with
  | none => none
  | some (v, l2) => matchValueErr fit v l2

def matchValueC (l : List Char) :
    Option (Option (List Char) × NumLit × Option NumLit × Option (List Char)) :=
  match l with
  | '@' :: rest =>
    if rest.takeWhile isSpaceC = [] then matchValueNum none ('@' :: rest)
    else matchValueNum (some (rest.takeWhile isSpaceC))
      (rest.drop (rest.takeWhile isSpaceC).length)
  | l' => matchValueNum none l'

/-- Matcher for the trailing check number `(([0-9]*[.])?[0-9]+)$` of
FRACTION_REGEX; returns (optional integer digits, mandatory digit run). -/
def matchCheckC (l : List Char) : Option (Option (List Char) × List Char) :=
  match l.drop (l.takeWhile Char.isDigit).length with
  | '.' :: l2 =>
    if l2.takeWhile Char.isDigit ≠ [] &&
        (l2.drop (l2.takeWhile Char.isDigit).length = [] ||
         l2.drop (l2.takeWhile Char.isDigit).length = ['\n']) then
      some (some (l.takeWhile Char.isDigit), l2.takeWhile Char.isDigit)
    else none
  | l2 =>
    if l.takeWhile Char.isDigit ≠ [] && (l2 = [] || l2 = ['\n']) then
      some (none, l.takeWhile Char.isDigit)
    else none

/-- Matcher for FRACTION_REGEX of value.py:
`^=(\d+)\/([1-9]\d*);\s*:\s*(([0-9]*[.])?[0-9]+)$`.  Returns (numerator
digits, denominator digits, check-number pieces).  All quantified pieces are
digit or whitespace runs followed by characters outside their class, so greedy
matching is deterministic. -/
def matchFractionC (l : List Char) :
    Option (List Char × List Char × (Option (List Char) × List Char)) :=
  match l with
  | '=' :: l1 =>
    if l1.takeWhile Char.isDigit = [] then none
    else
      match l1.drop (l1.takeWhile Char.isDigit).length with
      | '/' :: l2 =>
        match l2 with
        | d :: _ =>
          if d.isDigit && d ≠ '0' then
            match l2.drop (l2.takeWhile Char.isDigit).length with
            | ';' :: l3 =>
              match (l3.dropWhile isSpaceC) with
              | ':' :: l5 =>
                match matchCheckC (l5.dropWhile isSpaceC) with
                | some chk => some (l1.takeWhile Char.isDigit, l2.takeWhile Char.isDigit, chk)
                | none => none
              | _ => none
            | _ => none
          else none
        | [] => none
      | _ => none
  | _ => none

/-- The `Value` class of value.py: `value`, `error`, `has_been_fitted` and the
`parameters` attribute (the text of the matched group, `none` when the group
did not participate in the match). -/
structure Value where
  value : PyFloat
  error : PyFloat
  has_been_fitted : Bool
  parameters : Option String
deriving DecidableEq

/-- The text of VALUE_REGEX group 8 — the exponent part of the error number —
which `Value._parse` stores as `self.parameters` in the scalar branch. -/
def group8Text (err : Option NumLit) : Option String :=
  match err with
  | some e =>
    match e.exponent with
    | some (c, ds) => some (String.mk ('e' :: c :: ds))
    | none => none
  | none => none

/-- `float(match.group(6)) if match.group(6) else 0.0` of `Value._parse`. -/
def errFloat : Option NumLit → PyFloat
  | some e => pyFloatOfNum e
  | none => ⟨0, 1⟩

/-- The text of FRACTION_REGEX group 3 (the full check number). -/
def checkText (chk : Option (List Char) × List Char) : List Char :=
  ipRender chk.1 ++ chk.2

/-- `Value._parse` / the `Value` constructor of value.py: strip the input, try
VALUE_REGEX, then FRACTION_REGEX, else raise `ParsingError` carrying the
stripped string. -/
def parseValue (s : String) : Res Value :=
  match matchValueC (pyStrip s.data) with
  | some (fit, v, errN, _) =>
    .ok ⟨pyFloatOfNum v, errFloat errN, fit.isSome, group8Text errN⟩
  | none =>
    match matchFractionC (pyStrip s.data) with
    | some (nds, dds, chk) =>
      .ok ⟨⟨(natOfDigits nds : Int), natOfDigits dds⟩, ⟨0, 1⟩, false,
           some (String.mk (checkText chk))⟩
    | none => .err (.parsingError (String.mk (pyStrip s.data)))

/-! ## atom.py -/

/-- Nondeterministic regex-matching monad: a computation returns every
candidate (capture, rest-of-input) pair in backtracking preference order. -/
def RxM (α : Type) := List Char → List (α × List Char)

instance : Monad RxM where
  pure a := fun l => [(a, l)]
  bind x f := fun l => ((x l).map (fun p => f p.1 p.2)).flatten

/-- Literal text in a regex. -/
def rxLit (cs : List Char) : RxM Unit := fun l =>
  if hasPrefixL cs l then [((), l.drop cs.length)] else []

/-- A character class with a `+` quantifier: greedy, enumerating shorter
matches for backtracking. -/
def rxPlus (p : Char → Bool) : RxM (List Char) := fun l =>
  let m := (l.takeWhile p).length
  (List.range m).map (fun i => (l.take (m - i), l.drop (m - i)))

/-- An optional subpattern: the present alternative is preferred. -/
def rxOpt (x : RxM α) : RxM (Option α) := fun l =>
  ((x l).map (fun p => (some p.1, p.2))) ++ [(none, l)]

/-- Python `\w` over ASCII. -/
def isWordC (c : Char) : Bool := c.isAlphanum || c = '_'

/-- The groups of ATOM_REGEX that atom.py reads: 1 name, 2 multiplicity,
3/4/5 coordinates, 6 occupancy label, 7 occupancy, 9 optional beq label,
11 beq. -/
structure AtomGroups where
  g1 : List Char
  g2 : List Char
  g3 : List Char
  g4 : List Char
  g5 : List Char
  g6 : List Char
  g7 : List Char
  g9 : Option (List Char)
  g11 : List Char
deriving DecidableEq

/-- ATOM_REGEX of atom.py:
`site\s+(\S+)\s+num_posns\s+(\d+)\s+x\s+(.+)\s+y\s+(.+)\s+z\s+(.+)\s+`
`occ\s+([\w\+\-]+)\s+(.+)\s+beq\s+(([\w\+\-\=]+)(; :)?\s+)?(.+)`
transliterated combinator by combinator (`.` is any character but newline). -/
def atomRx : RxM AtomGroups := do
  rxLit "site".data
  _ ← rxPlus isSpaceC
  let g1 ← rxPlus (fun c => !isSpaceC c)
  _ ← rxPlus isSpaceC
  rxLit "num_posns".data
  _ ← rxPlus isSpaceC
  let g2 ← rxPlus Char.isDigit
  _ ← rxPlus isSpaceC
  rxLit "x".data
  _ ← rxPlus isSpaceC
  let g3 ← rxPlus (fun c => c ≠ '\n')
  _ ← rxPlus isSpaceC
  rxLit "y".data
  _ ← rxPlus isSpaceC
  let g4 ← rxPlus (fun c => c ≠ '\n')
  _ ← rxPlus isSpaceC
  rxLit "z".data
  _ ← rxPlus isSpaceC
  let g5 ← rxPlus (fun c => c ≠ '\n')
  _ ← rxPlus isSpaceC
  rxLit "occ".data
  _ ← rxPlus isSpaceC
  let g6 ← rxPlus (fun c => isWordC c || c = '+' || c = '-')
  _ ← rxPlus isSpaceC
  let g7 ← rxPlus (fun c => c ≠ '\n')
  _ ← rxPlus isSpaceC
  rxLit "beq".data
  _ ← rxPlus isSpaceC
  let g8 ← rxOpt (do
    let lbl ← rxPlus (fun c => isWordC c || c = '+' || c = '-' || c = '=')
    _ ← rxOpt (rxLit "; :".data)
    _ ← rxPlus isSpaceC
    pure lbl)
  let g11 ← rxPlus (fun c => c ≠ '\n')
  pure ⟨g1, g2, g3, g4, g5, g6, g7, g8, g11⟩

/-- `re.match(ATOM_REGEX, s)`: the first successful match (the regex is not
end-anchored, so trailing input may remain). -/
def atomMatch (l : List Char) : Option AtomGroups :=
  ((atomRx l).head?).map Prod.fst

/-- The `Atom` class of atom.py. -/
structure Atom where
  name : String
  multiplicity : Nat
  x_value : Value
  y_value : Value
  z_value : Value
  occ_label : String
  occ : Value
  beq_label : Option String
  beq : Value
deriving DecidableEq

/-- `Atom._parse` / the `Atom` constructor: match ATOM_REGEX or raise
`ValueError`; decode groups 3, 4, 5, 7 and 11 through `Value`. -/
def parseAtom (s : String) : Res Atom :=
  match atomMatch s.data with
  | none => .err (.valueError ("Could not parse atom line " ++ s))
  | some g => do
    let x ← parseValue (String.mk g.g3)
    let y ← parseValue (String.mk g.g4)
    let z ← parseValue (String.mk g.g5)
    let occ ← parseValue (String.mk g.g7)
    let beq ← parseValue (String.mk g.g11)
    pure ⟨String.mk g.g1, natOfDigits g.g2, x, y, z, String.mk g.g6, occ,
          g.g9.map String.mk, beq⟩

/-! ## structure.py -/

/-- A stored parameter: `Structure._set_parameter` receives either a plain
string (the crystal-system name) or a `Value`. -/
inductive ParamVal where
  | str (v : String)
  | val (v : Value)
deriving DecidableEq

/-- The `Structure` class: phase name, insertion-ordered parameter dict and
atom list. -/
structure Structure where
  phase_name : String
  params : List (String × ParamVal)
  atoms : List Atom
deriving DecidableEq

/-- `Structure.NUMERICAL_PARAMS` (a set: only membership is used). -/
def NUMERICAL_PARAMS : List String :=
  ["r_bragg", "phase_MAC", "scale", "a", "b", "c", "al", "be", "ga"]

/-- `Structure.CRYSTAL_SYSTEMS` (a dict: only lookup is used). -/
def CRYSTAL_SYSTEMS : List (String × List String) :=
  [("Triclinic", ["a", "b", "c", "al", "be", "ga"]),
   ("Monoclinic", ["a", "b", "c", "be"]),
   ("Orthorhombic", ["a", "b", "c"]),
   ("Tetragonal", ["a=b", "c"]),
   ("Hexagonal", ["a=b", "c"]),
   ("Trigonal", ["a=b", "c"]),
   ("Cubic", ["a=b=c"])]

/-- `Structure.REQUIRED_PARAMS`.  In the source this is a Python `set`, whose
iteration order is unspecified; this list fixes the source's textual order.
Every theorem below that depends on the completeness check leaves exactly one
parameter missing, so its conclusion is independent of the iteration order. -/
def REQUIRED_PARAMS : List String :=
  ["r_bragg", "molar_mass", "cell_volume", "mass_fraction"]

def hasKey (ps : List (String × ParamVal)) (k : String) : Bool :=
  ps.any (fun p => p.1 = k)

def lookupParam (ps : List (String × ParamVal)) (k : String) : Option ParamVal :=
  match ps.find? (fun p => p.1 = k) with
  | some p => some p.2
  | none => none

/-- `Structure._set_parameter`: a key may be assigned only once. -/
def setParameter (st : Structure) (name : String) (v : ParamVal) : Res Structure :=
  if hasKey st.params name then .err (.duplicatedParameter name)
  else .ok { st with params := st.params ++ [(name, v)] }

def lookupCS (k : String) : Option (List String) :=
  match CRYSTAL_SYSTEMS.find? (fun p => p.1 = k) with
  | some p => some p.2
  | none => none

/-- Inner loops of `Structure._parse_crystal_system`: for each (value string,
template entry) pair, assign `Value(value_str)` to every `=`-linked name.  As
in the source, the value string is decoded anew for each linked name. -/
def assignLinked (st : Structure) (vchars : List Char) : List String → Res Structure
  | [] => .ok st
  | p :: rest =>
    match parseValue (String.mk vchars) with
    | .err e => .err e
    | .ok v =>
      match setParameter st p (.val v) with
      | .err e => .err e
      | .ok st' => assignLinked st' vchars rest

def assignSystem (st : Structure) : List (List Char × String) → Res Structure
  | [] => .ok st
  | (vchars, tmpl) :: rest =>
    match assignLinked st vchars ((splitOnChar '=' tmpl.data).map String.mk) with
    | .err e => .err e
    | .ok st' => assignSystem st' rest

/-- `Structure._parse_crystal_system`. -/
def parseCrystalSystem (st : Structure) (cs : String) (valuesStr : List Char) :
    Res Structure :=
  match lookupCS cs with
  | none => .err (.valueError ("crystal system '" ++ cs ++ "' is not available"))
  | some tmpl =>
    match setParameter st "crystal_system" (.str cs) with
    | .err e => .err e
    | .ok st' =>
      if ((splitOnChar ',' valuesStr).map pyStrip).length ≠ tmpl.length then
        .err (.valueError ("number of parsed values (" ++
          toString ((splitOnChar ',' valuesStr).map pyStrip).length ++
          ") and of values required for crystalsystem '" ++ cs ++ "' (" ++
          toString tmpl.length ++ ") do not match"))
      else
        assignSystem st' (((splitOnChar ',' valuesStr).map pyStrip).zip tmpl)

/-- Matcher for `^phase_name "(.*)"$` of `Structure._parse`: the greedy `(.*)`
captures up to the last `"`, which `"$` forces to be the final character
(or the one before a terminal newline); `.` excludes newlines. -/
def phaseNameMatch (l : List Char) : Option (List Char) :=
  if hasPrefixL "phase_name \"".data l then
    match (l.drop 12).reverse with
    | '"' :: midRev =>
      if midRev.reverse.all (fun c => c ≠ '\n') then some midRev.reverse else none
    | '\n' :: '"' :: midRev =>
      if midRev.reverse.all (fun c => c ≠ '\n') then some midRev.reverse else none
    | _ => none
  else none

/-- Matcher for `^MVW\((.*),(.*),(.*)\)$` of `Structure._parse`: greedy
matching makes group 3 the text after the last comma and group 2 the text
between the last two commas. -/
def mvwMatch (l : List Char) : Option (List Char × List Char × List Char) :=
  if hasPrefixL "MVW(".data l then
    let body :=
      match (l.drop 4).reverse with
      | ')' :: contentRev => some contentRev
      | '\n' :: ')' :: contentRev => some contentRev
      | _ => none
    match body with
    | none => none
    | some contentRev =>
      if contentRev.all (fun c => c ≠ '\n') then
        let g3r := contentRev.takeWhile (fun c => c ≠ ',')
        match contentRev.drop g3r.length with
        | ',' :: r2 =>
          let g2r := r2.takeWhile (fun c => c ≠ ',')
          match r2.drop g2r.length with
          | ',' :: g1r => some (g1r.reverse, g2r.reverse, g3r.reverse)
          | _ => none
        | _ => none
      else none
  else none

/-- Matcher for `^([a-zA-Z]+)\((.*)\)$` of `Structure._parse`. -/
def parenMatch (l : List Char) : Option (String × List Char) :=
  if l.takeWhile Char.isAlpha = [] then none
  else
    match l.drop (l.takeWhile Char.isAlpha).length with
    | '(' :: rest =>
      match rest.reverse with
      | ')' :: contentRev =>
        if contentRev.all (fun c => c ≠ '\n') then
          some (String.mk (l.takeWhile Char.isAlpha), contentRev.reverse)
        else none
      | '\n' :: ')' :: contentRev =>
        if contentRev.all (fun c => c ≠ '\n') then
          some (String.mk (l.takeWhile Char.isAlpha), contentRev.reverse)
        else none
      | _ => none
    | _ => none

/-- One iteration of the dispatch in `Structure._parse`, applied to the
already-stripped line.  The priority order and the silent skip of unmatched
lines follow the source. -/
def parseStructLine (st : Structure) (line : String) : Res Structure :=
  match phaseNameMatch line.data with
  | some name => .ok { st with phase_name := String.mk name }
  | none =>
  match mvwMatch line.data with
  | some (g1, g2, g3) =>
    (match parseValue (String.mk (pyStrip g1)) with
     | .err e => .err e
     | .ok v1 =>
       match setParameter st "molar_mass" (.val v1) with
       | .err e => .err e
       | .ok st1 =>
         match parseValue (String.mk (pyStrip g2)) with
         | .err e => .err e
         | .ok v2 =>
           match setParameter st1 "cell_volume" (.val v2) with
           | .err e => .err e
           | .ok st2 =>
             match parseValue (String.mk (pyStrip g3)) with
             | .err e => .err e
             | .ok v3 => setParameter st2 "mass_fraction" (.val v3))
  | none =>
  match parenMatch line.data with
  | some (name, inner) =>
    if (lookupCS name).isSome then parseCrystalSystem st name inner else .ok st
  | none =>
  if hasPrefixL "site".data line.data then
    match parseAtom line with
    | .err e => .err e
    | .ok a => .ok { st with atoms := st.atoms ++ [a] }
  else
    match splitMax1 line.data with
    | [w] =>
      if NUMERICAL_PARAMS.contains (String.mk w) then
        .err (.valueError ("found parameter " ++ String.mk w ++ " without value"))
      else .ok st
    | [w, rest] =>
      if NUMERICAL_PARAMS.contains (String.mk w) then
        match parseValue (String.mk rest) with
        | .err e => .err e
        | .ok v => setParameter st (String.mk w) (.val v)
      else .ok st
    | _ => .ok st

/-- The line-consuming loop of `Structure._parse`: pop and strip lines while
they start with two tabs. -/
def parseStructLoop (st : Structure) : List String → Res (Structure × List String)
  | [] => .ok (st, [])
  | line :: rest =>
    if hasPrefixL "\t\t".data line.data then
      match parseStructLine st (String.mk (pyStrip line.data)) with
      | .err e => .err e
      | .ok st' => parseStructLoop st' rest
    else .ok (st, line :: rest)

/-- `Structure._parse` running from an arbitrary starting state: the loop
followed by the completeness checks. -/
def parseStructureFrom (st : Structure) (queue : List String) :
    Res (Structure × List String) :=
  match parseStructLoop st queue with
  | .err e => .err e
  | .ok (st', rest) =>
    if st'.phase_name = "" then .err (.missingInformation "phase_name")
    else
      match REQUIRED_PARAMS.find? (fun p => !hasKey st'.params p) with
      | some p => .err (.missingInformation p)
      | none => .ok (st', rest)

/-- The `Structure` constructor: parse from the empty state. -/
def parseStructure (queue : List String) : Res (Structure × List String) :=
  parseStructureFrom ⟨"", [], []⟩ queue

/-! ## measurement.py -/

/-- XDD_REGEX `xdd "(.+)"` under `re.match`: the line must start with
`xdd "`; the greedy `(.+)` captures up to the last `"` reachable without
crossing a newline; trailing text after that quote is allowed (the regex is
not end-anchored). -/
def xddMatch (l : List Char) : Option (List Char) :=
  if hasPrefixL "xdd \"".data l then
    match ((l.drop 5).takeWhile (fun c => c ≠ '\n')).reverse.dropWhile
        (fun c => c ≠ '"') with
    | [] => none
    | _ :: revPre => if revPre = [] then none else some revPre.reverse
  else none

/-- TEMPERATURE_REGEX `_(\d+)-0_C\.xy$` under `re.search`: because of the
end anchor a match exists iff the string ends with `-0_C.xy` preceded by a
nonempty digit run preceded by `_`; the leftmost match makes the captured run
the maximal such digit run. -/
def tempSearch (path : List Char) : Option (List Char) :=
  if hasPrefixL "-0_C.xy".data.reverse path.reverse then
    if (path.reverse.drop 7).takeWhile Char.isDigit = [] then none
    else
      match (path.reverse.drop 7).drop
          ((path.reverse.drop 7).takeWhile Char.isDigit).length with
      | '_' :: _ => some ((path.reverse.drop 7).takeWhile Char.isDigit).reverse
      | _ => none
  else none

/-- `Measurement._parse_xdd_call`: extract the `.xy` path and derive the
temperature from the filename suffix, raising `ValueError` on either
failure. -/
def parseXddCall (callingLine : String) : Res (String × PyFloat) :=
  match xddMatch callingLine.data with
  | none => .err (.valueError ("Could not parse .xy filename from " ++ callingLine))
  | some path =>
    match tempSearch path with
    | none =>
      .err (.valueError ("Could not parse temperature from " ++ String.mk path ++
        ", expected filename to end with something like '_0024-0_C.xy' (which " ++
        "would return 24.0 for 24 degrees Celcius)"))
    | some ds =>
      .ok (String.mk path,
        if ds.dropWhile (fun c => c = '0') = [] then ⟨0, 1⟩
        else ⟨(natOfDigits (ds.dropWhile (fun c => c = '0')) : Int), 1⟩)

/-- The `Measurement` class. -/
structure Measurement where
  xy_file_path : String
  temperature : PyFloat
  params : List (String × Value)
  structures : List (String × Structure)
deriving DecidableEq

/-- Python dict assignment `d[k] = v`: overwrite in place or append. -/
def dictInsert {α : Type} : List (String × α) → String → α → List (String × α)
  | [], k, v => [(k, v)]
  | (k', v') :: rest, k, v =>
    if k' = k then (k, v) :: rest else (k', v') :: dictInsert rest k v

/-- The `r_exp` loop of `Measurement._parse`:
`for i in range(0, len(line_split), 2): params[line_split[i]] = Value(line_split[i+1])`.
Indexing `line_split[i + 1]` on an odd-length list raises `IndexError`; a
`Value` that fails to parse raises first. -/
def rexpLoop (params : List (String × Value)) : List String → Res (List (String × Value))
  | [] => .ok params
  | [_] => .err .indexError
  | n :: v :: rest =>
    match parseValue v with
    | .err e => .err e
    | .ok val => rexpLoop (dictInsert params n val) rest

/-- Number of lines `parseStructLoop` leaves unconsumed never exceeds its
input (justifies the fuel bound of the measurement loop). -/
theorem parseStructLoop_rest_le (q : List String) :
    ∀ st st' r, parseStructLoop st q = .ok (st', r) → r.length ≤ q.length := by
  induction q with
  | nil => intro st st' r h; cases h; simp
  | cons line rest ih =>
    intro st st' r h
    unfold parseStructLoop at h
    by_cases hp : hasPrefixL "\t\t".data line.data = true
    · simp only [hp, if_true] at h
      cases hm : parseStructLine st (String.mk (pyStrip line.data)) with
      | err e => rw [hm] at h; cases h
      | ok st1 =>
        rw [hm] at h
        have := ih st1 st' r h
        simp; omega
    · simp only [hp, if_false] at h
      cases h
      simp

/-- The line-consuming loop of `Measurement._parse`: pop lines while they
start with one tab; `\tstr` lines hand the queue to the Structure parser,
`\tr_exp` lines feed the fit-quality pairs, anything else is skipped.
Structured with explicit fuel to keep the definition kernel-reducible; every
iteration consumes at least the popped line (`parseStructLoop_rest_le`), so a
fuel equal to the initial queue length never runs out. -/
def parseMeasLoopF : Measurement → Nat → List String → Res (Measurement × List String)
  | m, _, [] => .ok (m, [])
  | m, 0, q => .ok (m, q)
  | m, fuel + 1, line :: rest =>
    if hasPrefixL "\t".data line.data then
      if hasPrefixL "\tstr".data line.data then
        match parseStructure rest with
        | .err e => .err e
        | .ok (st, rest') =>
          parseMeasLoopF { m with structures := dictInsert m.structures st.phase_name st }
            fuel rest'
      else if hasPrefixL "\tr_exp".data line.data then
        match rexpLoop m.params ((pySplitWs (pyStrip line.data)).map String.mk) with
        | .err e => .err e
        | .ok ps => parseMeasLoopF { m with params := ps } fuel rest
      else parseMeasLoopF m fuel rest
    else .ok (m, line :: rest)

def parseMeasLoop (m : Measurement) (q : List String) : Res (Measurement × List String) :=
  parseMeasLoopF m q.length q

/-- The `Measurement` constructor: parse the `xdd` call, then consume the
measurement's lines. -/
def parseMeasurement (callingLine : String) (q : List String) :
    Res (Measurement × List String) :=
  match parseXddCall callingLine with
  | .err e => .err e
  | .ok (p, t) => parseMeasLoop ⟨p, t, [], []⟩ q

/-! ## General list lemmas used by the matcher proofs -/

theorem takeWhile_app_eq (p : Char → Bool) (l r : List Char)
    (hl : ∀ c ∈ l, p c = true) (hr : ∀ c ∈ r.head?, p c = false) :
    (l ++ r).takeWhile p = l := by
  induction l with
  | nil =>
    cases r with
    | nil => rfl
    | cons c cs => simp [List.takeWhile_cons, hr c rfl]
  | cons a l ih =>
    have ha : p a = true := hl a (by simp)
    simp only [List.cons_append, List.takeWhile_cons, ha, if_true]
    rw [ih (fun c hc => hl c (by simp [hc]))]

theorem takeWhile_app_all (p : Char → Bool) (l r : List Char)
    (hl : ∀ c ∈ l, p c = true) :
    (l ++ r).takeWhile p = l ++ r.takeWhile p := by
  induction l with
  | nil => rfl
  | cons a l ih =>
    have ha : p a = true := hl a (by simp)
    simp only [List.cons_append, List.takeWhile_cons, ha, if_true]
    rw [ih (fun c hc => hl c (by simp [hc]))]

theorem dropWhile_head_fail (p : Char → Bool) (l : List Char)
    (h : ∀ c ∈ l.head?, p c = false) : l.dropWhile p = l := by
  cases l with
  | nil => rfl
  | cons c cs => simp [List.dropWhile_cons, h c rfl]

theorem dropWhile_app_all (p : Char → Bool) (l r : List Char)
    (hl : ∀ c ∈ l, p c = true) :
    (l ++ r).dropWhile p = r.dropWhile p := by
  induction l with
  | nil => rfl
  | cons a l ih =>
    have ha : p a = true := hl a (by simp)
    simp only [List.cons_append, List.dropWhile_cons, ha, if_true]
    exact ih (fun c hc => hl c (by simp [hc]))

theorem head?_dropWhile_fail (p : Char → Bool) (l : List Char) :
    ∀ c ∈ (l.dropWhile p).head?, p c = false := by
  induction l with
  | nil => intro c h; cases h
  | cons a l ih =>
    intro c h
    by_cases ha : p a = true
    · exact ih c (by simpa [List.dropWhile_cons, ha] using h)
    · rw [List.dropWhile_cons, if_neg (by simpa using ha)] at h
      have : a = c := by simpa using h
      subst this
      simpa using ha

theorem getLast?_cons_ne_nil (a : Char) (l : List Char) (h : l ≠ []) :
    (a :: l).getLast? = l.getLast? := by
  cases l with
  | nil => exact absurd rfl h
  | cons b t => simp [List.getLast?]

theorem getLast?_dropWhile (p : Char → Bool) (l : List Char)
    (h : l.dropWhile p ≠ []) : (l.dropWhile p).getLast? = l.getLast? := by
  induction l with
  | nil => simp at h
  | cons a l ih =>
    by_cases ha : p a = true
    · have hd : (a :: l).dropWhile p = l.dropWhile p := by simp [List.dropWhile_cons, ha]
      rw [hd] at h ⊢
      have hl : l ≠ [] := by
        intro he; rw [he] at h; simp at h
      rw [ih h, getLast?_cons_ne_nil a l hl]
    · simp [List.dropWhile_cons, ha]

/-- A stripped list starts with a non-space (if nonempty). -/
theorem pyStrip_head (l : List Char) :
    ∀ c ∈ (pyStrip l).head?, isSpaceC c = false := by
  intro c h
  unfold pyStrip at h
  rw [List.head?_reverse] at h
  set b := (l.dropWhile isSpaceC).reverse.dropWhile isSpaceC with hb
  have hbne : b ≠ [] := by
    intro he; rw [he] at h; cases h
  rw [getLast?_dropWhile _ _ hbne, List.getLast?_reverse] at h
  exact head?_dropWhile_fail isSpaceC l c h

theorem pyStrip_getLast (l : List Char) :
    ∀ c ∈ (pyStrip l).getLast?, isSpaceC c = false := by
  intro c h
  unfold pyStrip at h
  rw [List.getLast?_reverse] at h
  exact head?_dropWhile_fail _ _ c h

theorem pyStrip_eq_self (l : List Char)
    (h1 : ∀ c ∈ l.head?, isSpaceC c = false)
    (h2 : ∀ c ∈ l.getLast?, isSpaceC c = false) : pyStrip l = l := by
  unfold pyStrip
  rw [dropWhile_head_fail _ _ h1]
  rw [dropWhile_head_fail _ _ (by rw [List.head?_reverse]; exact h2)]
  exact List.reverse_reverse l

theorem pyStrip_idem (l : List Char) : pyStrip (pyStrip l) = pyStrip l :=
  pyStrip_eq_self _ (pyStrip_head l) (pyStrip_getLast l)

theorem splitOnChar_cons (sep c : Char) (cs : List Char) :
    splitOnChar sep (c :: cs) =
      match splitOnChar sep cs with
      | [] => [[c]]
      | h :: t => if c = sep then [] :: h :: t else (c :: h) :: t := rfl

theorem splitOnChar_no_sep (sep : Char) (l : List Char) (h : sep ∉ l) :
    splitOnChar sep l = [l] := by
  induction l with
  | nil => rfl
  | cons c cs ih =>
    have hc : c ≠ sep := by intro he; exact h (by simp [he])
    have h2 : splitOnChar sep cs = [cs] := ih (fun hm => h (by simp [hm]))
    rw [splitOnChar_cons, h2]
    simp [hc]

/-! ## Character-class lemmas -/

theorem digit_ne (c x : Char) (hd : c.isDigit = true) (hx : x.isDigit = false) :
    c ≠ x := by
  intro he; rw [he, hx] at hd; cases hd

theorem isSpaceC_props (c : Char) (h : isSpaceC c = true) :
    c.isDigit = false ∧ c ≠ '.' ∧ c ≠ 'e' ∧ c ≠ '`' ∧ c ≠ '@' ∧ c ≠ '(' ∧
      c.isAlpha = false := by
  unfold isSpaceC at h
  simp only [Bool.or_eq_true, decide_eq_true_eq] at h
  rcases h with ((((h | h) | h) | h) | h) | h <;> subst h <;>
    exact ⟨by decide, by decide, by decide, by decide, by decide, by decide, by decide⟩

theorem digit_not_space (c : Char) (hd : c.isDigit = true) : isSpaceC c = false := by
  unfold isSpaceC
  simp only [Bool.or_eq_false_iff, decide_eq_false_iff_not]
  exact ⟨⟨⟨⟨⟨digit_ne c ' ' hd (by decide), digit_ne c '\t' hd (by decide)⟩,
    digit_ne c '\n' hd (by decide)⟩, digit_ne c '\r' hd (by decide)⟩,
    digit_ne c '\x0b' hd (by decide)⟩, digit_ne c '\x0c' hd (by decide)⟩

/-- The follower condition under which greedy `NUMERIC_REGEX` matching is
deterministic: the next character is not a digit, a dot or `e`. -/
def numFollower (r : List Char) : Prop :=
  ∀ c ∈ r.head?, c.isDigit = false ∧ c ≠ '.' ∧ c ≠ 'e'

/-! ## NUMERIC_REGEX matcher lemmas -/

theorem parseExpC_none (r : List Char) (hr : ∀ c ∈ r.head?, c ≠ 'e') :
    parseExpC r = (none, r) := by
  unfold parseExpC
  split
  · rename_i c rest
    exact absurd rfl (hr 'e' rfl)
  · rfl

theorem parseExpC_some (c : Char) (ds r : List Char)
    (hc : c = '+' ∨ c = '-') (hne : ds ≠ []) (hds : ∀ x ∈ ds, x.isDigit = true)
    (hr : ∀ x ∈ r.head?, x.isDigit = false) :
    parseExpC ('e' :: c :: (ds ++ r)) = (some (c, ds), r) := by
  have hcc : (c = '+' || c = '-') = true := by
    rcases hc with h | h <;> simp [h]
  have hTW : (ds ++ r).takeWhile Char.isDigit = ds :=
    takeWhile_app_eq _ _ _ hds (fun x hx => hr x hx)
  unfold parseExpC
  split
  · rename_i c1 rest heq
    obtain ⟨h3, h4⟩ : c = c1 ∧ ds ++ r = rest := by
      injection heq with h1 h2
      injection h2 with h3 h4
      exact ⟨h3, h4⟩
    subst h3
    subst h4
    rw [if_pos hcc, hTW, if_neg hne, List.drop_left]
  · rename_i h
    exact absurd rfl (h c (ds ++ r))

theorem parseNumTail_render (sgn : Option Char) (ip : Option (List Char))
    (md : List Char) (ex : Option (Char × List Char)) (r : List Char)
    (hip : ∀ ds ∈ ip, ∀ c ∈ ds, c.isDigit = true)
    (hmdne : md ≠ []) (hmd : ∀ c ∈ md, c.isDigit = true)
    (hex : ∀ p ∈ ex, (p.1 = '+' ∨ p.1 = '-') ∧ p.2 ≠ [] ∧ ∀ c ∈ p.2, c.isDigit = true)
    (hr : numFollower r) :
    parseNumTail sgn (ipRender ip ++ md ++ exRender ex ++ r) =
      some (⟨sgn, ip, md, ex⟩, r) := by
  have hexr_head : ∀ c ∈ (exRender ex ++ r).head?, c.isDigit = false ∧ c ≠ '.' := by
    intro c hc
    cases ex with
    | none =>
      simp only [exRender, List.nil_append] at hc
      exact ⟨(hr c hc).1, (hr c hc).2.1⟩
    | some p =>
      obtain ⟨c', ds'⟩ := p
      simp only [exRender, List.cons_append, List.head?_cons] at hc
      have : 'e' = c := by simpa using hc
      subst this
      exact ⟨by decide, by decide⟩
  have hexp : parseExpC (exRender ex ++ r) = (ex, r) := by
    cases ex with
    | none =>
      simp only [exRender, List.nil_append]
      exact parseExpC_none r (fun c hc => (hr c hc).2.2)
    | some p =>
      obtain ⟨c', ds'⟩ := p
      have h := hex (c', ds') rfl
      simp only [exRender, List.cons_append]
      exact parseExpC_some c' ds' r h.1 h.2.1 h.2.2
        (fun x hx => (hr x hx).1)
  have hTW3 : (md ++ (exRender ex ++ r)).takeWhile Char.isDigit = md :=
    takeWhile_app_eq _ _ _ hmd (fun c hc => (hexr_head c hc).1)
  cases ip with
  | some ds =>
    have hds : ∀ c ∈ ds, c.isDigit = true := hip ds rfl
    have harr : ipRender (some ds) ++ md ++ exRender ex ++ r =
        ds ++ ('.' :: (md ++ (exRender ex ++ r))) := by
      simp [ipRender]
    have hTW : (ds ++ ('.' :: (md ++ (exRender ex ++ r)))).takeWhile Char.isDigit = ds :=
      takeWhile_app_eq _ _ _ hds
        (by intro c hc
            have h : '.' = c := by simpa using hc
            rw [← h]; decide)
    rw [harr]
    unfold parseNumTail
    rw [hTW, List.drop_left]
    split
    · rename_i l3 heq
      have h4 : md ++ (exRender ex ++ r) = l3 := by
        injection heq with _ h4
      subst h4
      rw [hTW3, if_neg hmdne, List.drop_left, hexp]
    · rename_i h
      exact absurd rfl (h (md ++ (exRender ex ++ r)))
  | none =>
    have harr : ipRender none ++ md ++ exRender ex ++ r = md ++ (exRender ex ++ r) := by
      simp [ipRender]
    rw [harr]
    unfold parseNumTail
    rw [hTW3, List.drop_left]
    split
    · rename_i l3 heq
      exfalso
      exact (hexr_head '.' (by rw [heq]; rfl)).2 rfl
    · rw [if_neg hmdne, hexp]

theorem parseNumC_cons (c : Char) (rest : List Char) :
    parseNumC (c :: rest) =
      if c = '+' || c = '-' then parseNumTail (some c) rest
      else parseNumTail none (c :: rest) := rfl

theorem parseNumC_render (n : NumLit) (hn : numWF n) (r : List Char)
    (hr : numFollower r) :
    parseNumC (renderNum n ++ r) = some (n, r) := by
  obtain ⟨sgn, ip, md, ex⟩ := n
  obtain ⟨hsgn, hip, ⟨hmdne, hmd⟩, hex⟩ := hn
  have main := parseNumTail_render sgn ip md ex r hip hmdne hmd hex hr
  cases sgn with
  | some s =>
    have hs : s = '+' ∨ s = '-' := hsgn s rfl
    have hcond : (s = '+' || s = '-') = true := by rcases hs with h | h <;> simp [h]
    have harr : renderNum ⟨some s, ip, md, ex⟩ ++ r =
        s :: (ipRender ip ++ md ++ exRender ex ++ r) := by
      simp [renderNum, sgnRender]
    rw [harr, parseNumC_cons, if_pos hcond]
    exact main
  | none =>
    have harr : renderNum ⟨none, ip, md, ex⟩ ++ r =
        ipRender ip ++ md ++ exRender ex ++ r := by
      simp [renderNum, sgnRender]
    rw [harr]
    have hhead : ∀ c ∈ (ipRender ip ++ md ++ exRender ex ++ r).head?,
        (c = '+' || c = '-') = false := by
      intro c hc
      cases ip with
      | some ds =>
        cases ds with
        | nil =>
          simp only [ipRender, List.nil_append, List.cons_append, List.head?_cons] at hc
          have h : '.' = c := by simpa using hc
          rw [← h]; decide
        | cons d dt =>
          simp only [ipRender, List.cons_append, List.head?_cons] at hc
          have h : d = c := by simpa using hc
          have hd : d.isDigit = true := hip (d :: dt) rfl d (by simp)
          rw [← h]
          simp [digit_ne d '+' hd (by decide), digit_ne d '-' hd (by decide)]
      | none =>
        cases md with
        | nil => exact absurd rfl hmdne
        | cons m mt =>
          simp only [ipRender, List.nil_append, List.cons_append, List.head?_cons] at hc
          have h : m = c := by simpa using hc
          have hd : m.isDigit = true := hmd m (by simp)
          rw [← h]
          simp [digit_ne m '+' hd (by decide), digit_ne m '-' hd (by decide)]
    unfold parseNumC
    split
    · rename_i c rest heq
      have hcf : (c = '+' || c = '-') = false := hhead c (by rw [heq]; rfl)
      rw [if_neg (by simp [hcf]), ← heq]
      exact main
    · rename_i heq
      exfalso
      cases ip with
      | some ds => cases ds <;> simp [ipRender] at heq
      | none =>
        cases md with
        | nil => exact absurd rfl hmdne
        | cons m mt => simp [ipRender] at heq

/-! ## VALUE_REGEX matcher lemmas -/

/-- The text of the fit-marker group `(@\s+)?`. -/
def fitRender : Option (List Char) → List Char
  | none => []
  | some ws => '@' :: ws

/-- The text of the error group `` (`_NUM)? ``. -/
def errRender : Option NumLit → List Char
  | none => []
  | some e => '`' :: '_' :: renderNum e

/-- The text of the trailing group `([\s_](.*))?`. -/
def tailRender : Option (Char × List Char) → List Char
  | none => []
  | some (c, b) => c :: b

/-- Well-formedness of the fit-marker group: `@` followed by at least one
whitespace character. -/
def fitWF (f : Option (List Char)) : Prop :=
  ∀ ws ∈ f, ws ≠ [] ∧ ∀ c ∈ ws, isSpaceC c = true

def errWF (e : Option NumLit) : Prop := ∀ n ∈ e, numWF n

/-- Well-formedness of the trailing group: a space-or-underscore separator
followed by a newline-free body. -/
def tailWF (t : Option (Char × List Char)) : Prop :=
  ∀ p ∈ t, (isSpaceC p.1 = true ∨ p.1 = '_') ∧ '\n' ∉ p.2

theorem tailFollower (t : Option (Char × List Char)) (ht : tailWF t) :
    numFollower (tailRender t) := by
  cases t with
  | none => intro c hc; cases hc
  | some p =>
    obtain ⟨c, b⟩ := p
    intro x hx
    have h : c = x := by simpa [tailRender] using hx
    have hc1 : isSpaceC c = true ∨ c = '_' := (ht (c, b) rfl).1
    rw [← h]
    rcases hc1 with hs | hu
    · have hp := isSpaceC_props c hs
      exact ⟨hp.1, hp.2.1, hp.2.2.1⟩
    · rw [hu]; exact ⟨by decide, by decide, by decide⟩

theorem matchDotStarEnd_no_nl (b : List Char) (hb : '\n' ∉ b) :
    matchDotStarEnd b = some b := by
  unfold matchDotStarEnd
  rw [if_pos]
  simp only [List.all_eq_true, decide_eq_true_eq]
  intro c hc he
  exact hb (he ▸ hc)

theorem matchValueEnd_cons (fit : Option (List Char)) (v : NumLit)
    (errN : Option NumLit) (c : Char) (rest : List Char) :
    matchValueEnd fit v errN (c :: rest) =
      if isSpaceC c || c = '_' then
        match matchDotStarEnd rest with
        | some body => some (fit, v, errN, some body)
        | none => none
      else none := rfl

theorem matchValueEnd_render (fit : Option (List Char)) (v : NumLit)
    (errN : Option NumLit) (t : Option (Char × List Char)) (ht : tailWF t) :
    matchValueEnd fit v errN (tailRender t) = some (fit, v, errN, t.map Prod.snd) := by
  cases t with
  | none => rfl
  | some p =>
    obtain ⟨c, b⟩ := p
    have hc1 : isSpaceC c = true ∨ c = '_' := (ht (c, b) rfl).1
    have hb : '\n' ∉ b := (ht (c, b) rfl).2
    simp only [tailRender]
    rw [matchValueEnd_cons, if_pos (by rcases hc1 with h | h <;> simp [h]),
      matchDotStarEnd_no_nl b hb]
    rfl

theorem matchValueErr_render (fit : Option (List Char)) (v : NumLit)
    (errN : Option NumLit) (t : Option (Char × List Char))
    (he : errWF errN) (ht : tailWF t) :
    matchValueErr fit v (errRender errN ++ tailRender t) =
      some (fit, v, errN, t.map Prod.snd) := by
  cases errN with
  | some e =>
    have hwf := he e rfl
    simp only [errRender, List.cons_append]
    rw [show matchValueErr fit v ('`' :: '_' :: (renderNum e ++ tailRender t)) =
        (match parseNumC (renderNum e ++ tailRender t) with
         | some (e', r') => matchValueEnd fit v (some e') r'
         | none =>
           matchValueEnd fit v none ('`' :: '_' :: (renderNum e ++ tailRender t)))
        from rfl]
    rw [parseNumC_render e hwf _ (tailFollower t ht)]
    exact matchValueEnd_render fit v (some e) t ht
  | none =>
    simp only [errRender, List.nil_append]
    cases t with
    | none => rfl
    | some p =>
      obtain ⟨c, b⟩ := p
      have hc1 : isSpaceC c = true ∨ c = '_' := (ht (c, b) rfl).1
      have hcq : c ≠ '`' := by
        rcases hc1 with hs | hu
        · exact (isSpaceC_props c hs).2.2.2.1
        · rw [hu]; decide
      simp only [tailRender]
      unfold matchValueErr
      split
      · rename_i r heq
        exfalso
        injection heq with h1 _
        exact hcq h1
      · exact matchValueEnd_render fit v none (some (c, b)) ht

/-- The first character of a well-formed numeric literal is a sign, a digit or
a dot. -/
theorem renderNum_head_class (n : NumLit) (hn : numWF n) :
    ∀ c ∈ (renderNum n).head?,
      c.isDigit = true ∨ c = '.' ∨ c = '+' ∨ c = '-' := by
  obtain ⟨sgn, ip, md, ex⟩ := n
  obtain ⟨hsgn, hip, ⟨hmdne, hmd⟩, _⟩ := hn
  intro c hc
  cases sgn with
  | some s =>
    simp only [renderNum, sgnRender, List.cons_append, List.head?_cons] at hc
    have h : s = c := by simpa using hc
    rcases hsgn s rfl with h1 | h1 <;> rw [← h, h1] <;> simp
  | none =>
    cases ip with
    | some ds =>
      cases ds with
      | nil =>
        simp only [renderNum, sgnRender, ipRender, List.nil_append, List.cons_append,
          List.head?_cons] at hc
        have h : '.' = c := by simpa using hc
        rw [← h]; simp
      | cons d dt =>
        simp only [renderNum, sgnRender, ipRender, List.nil_append, List.cons_append,
          List.head?_cons] at hc
        have h : d = c := by simpa using hc
        rw [← h]
        exact Or.inl (hip (d :: dt) rfl d (by simp))
    | none =>
      cases md with
      | nil => exact absurd rfl hmdne
      | cons m mt =>
        simp only [renderNum, sgnRender, ipRender, List.nil_append, List.cons_append,
          List.head?_cons] at hc
        have h : m = c := by simpa using hc
        rw [← h]
        exact Or.inl (hmd m (by simp))

theorem renderNum_ne_nil (n : NumLit) (hn : numWF n) : renderNum n ≠ [] := by
  obtain ⟨sgn, ip, md, ex⟩ := n
  obtain ⟨_, _, ⟨hmdne, _⟩, _⟩ := hn
  simp only [renderNum]
  intro h
  rw [List.append_assoc, List.append_assoc] at h
  rcases List.append_eq_nil.mp h with ⟨_, h2⟩
  rcases List.append_eq_nil.mp h2 with ⟨_, h3⟩
  rcases List.append_eq_nil.mp h3 with ⟨h4, _⟩
  exact hmdne h4

/-- The last character of a well-formed numeric literal is a digit. -/
theorem renderNum_getLast_digit (n : NumLit) (hn : numWF n) :
    ∀ c ∈ (renderNum n).getLast?, c.isDigit = true := by
  obtain ⟨sgn, ip, md, ex⟩ := n
  obtain ⟨_, _, ⟨hmdne, hmd⟩, hex⟩ := hn
  intro c hc
  cases ex with
  | some p =>
    obtain ⟨c', ds'⟩ := p
    obtain ⟨_, hdne, hds⟩ := hex (c', ds') rfl
    simp only [renderNum, exRender] at hc
    rw [List.getLast?_append_of_ne_nil _ (by simp [hdne])] at hc
    have h2 : ('e' :: c' :: ds').getLast? = ds'.getLast? := by
      rw [getLast?_cons_ne_nil _ _ (by simp), getLast?_cons_ne_nil _ _ hdne]
    rw [h2] at hc
    obtain ⟨d, hd1, hd2⟩ : ∃ d, ds'.getLast? = some d ∧ d ∈ ds' := by
      cases hg : ds'.getLast? with
      | none => exact absurd (List.getLast?_eq_none_iff.mp hg) hdne
      | some d => exact ⟨d, rfl, List.mem_of_mem_getLast? hg⟩
    rw [hd1] at hc
    have : d = c := by simpa using hc
    rw [← this]
    exact hds d hd2
  | none =>
    simp only [renderNum, exRender, List.append_nil] at hc
    rw [List.getLast?_append_of_ne_nil _ hmdne] at hc
    obtain ⟨d, hd1, hd2⟩ : ∃ d, md.getLast? = some d ∧ d ∈ md := by
      cases hg : md.getLast? with
      | none => exact absurd (List.getLast?_eq_none_iff.mp hg) hmdne
      | some d => exact ⟨d, rfl, List.mem_of_mem_getLast? hg⟩
    rw [hd1] at hc
    have : d = c := by simpa using hc
    rw [← this]
    exact hmd d hd2

theorem matchValueNum_render (fit : Option (List Char)) (v : NumLit)
    (errN : Option NumLit) (t : Option (Char × List Char))
    (hv : numWF v) (he : errWF errN) (ht : tailWF t) :
    matchValueNum fit (renderNum v ++ errRender errN ++ tailRender t) =
      some (fit, v, errN, t.map Prod.snd) := by
  have hfol : numFollower (errRender errN ++ tailRender t) := by
    cases errN with
    | some e =>
      intro c hc
      have h : '`' = c := by simpa [errRender] using hc
      rw [← h]
      exact ⟨by decide, by decide, by decide⟩
    | none =>
      simp only [errRender, List.nil_append]
      exact tailFollower t ht
  unfold matchValueNum
  rw [List.append_assoc, parseNumC_render v hv _ hfol]
  exact matchValueErr_render fit v errN t he ht

theorem matchValueC_render (fit : Option (List Char)) (v : NumLit)
    (errN : Option NumLit) (t : Option (Char × List Char))
    (hf : fitWF fit) (hv : numWF v) (he : errWF errN) (ht : tailWF t) :
    matchValueC (fitRender fit ++ (renderNum v ++ errRender errN ++ tailRender t)) =
      some (fit, v, errN, t.map Prod.snd) := by
  have hvhead : ∀ c ∈ (renderNum v ++ errRender errN ++ tailRender t).head?,
      isSpaceC c = false ∧ c ≠ '@' := by
    intro c hc
    obtain ⟨c0, t0, h0⟩ : ∃ c0 t0, renderNum v = c0 :: t0 := by
      cases hrn : renderNum v with
      | nil => exact absurd hrn (renderNum_ne_nil v hv)
      | cons c0 t0 => exact ⟨c0, t0, rfl⟩
    rw [List.append_assoc, h0, List.cons_append] at hc
    have h : c0 = c := by simpa using hc
    have hcl := renderNum_head_class v hv c0 (by rw [h0]; rfl)
    rw [← h]
    rcases hcl with h1 | h1 | h1 | h1
    · exact ⟨digit_not_space c0 h1, digit_ne c0 '@' h1 (by decide)⟩
    · rw [h1]; exact ⟨by decide, by decide⟩
    · rw [h1]; exact ⟨by decide, by decide⟩
    · rw [h1]; exact ⟨by decide, by decide⟩
  cases fit with
  | some ws =>
    obtain ⟨hwsne, hws⟩ := hf ws rfl
    simp only [fitRender, List.cons_append]
    rw [show matchValueC ('@' :: (ws ++ (renderNum v ++ errRender errN ++ tailRender t))) =
        (if (ws ++ (renderNum v ++ errRender errN ++ tailRender t)).takeWhile isSpaceC = []
         then matchValueNum none
           ('@' :: (ws ++ (renderNum v ++ errRender errN ++ tailRender t)))
         else matchValueNum
           (some ((ws ++ (renderNum v ++ errRender errN ++ tailRender t)).takeWhile isSpaceC))
           ((ws ++ (renderNum v ++ errRender errN ++ tailRender t)).drop
             ((ws ++ (renderNum v ++ errRender errN ++ tailRender t)).takeWhile
               isSpaceC).length)) from rfl]
    have hTW : (ws ++ (renderNum v ++ errRender errN ++ tailRender t)).takeWhile isSpaceC
        = ws := takeWhile_app_eq _ _ _ hws (fun c hc => (hvhead c hc).1)
    rw [hTW, if_neg hwsne, List.drop_left]
    exact matchValueNum_render (some ws) v errN t hv he ht
  | none =>
    simp only [fitRender, List.nil_append]
    unfold matchValueC
    split
    · rename_i rest heq
      exfalso
      exact (hvhead '@' (by rw [heq]; rfl)).2 rfl
    · exact matchValueNum_render none v errN t hv he ht

/-! ## parse_value lemmas -/

theorem takeWhile_all_eq (p : Char → Bool) (l : List Char)
    (h : ∀ c ∈ l, p c = true) : l.takeWhile p = l := by
  have h2 := takeWhile_app_eq p l [] h (by intro c hc; cases hc)
  simpa using h2

/-- The first character of a scalar token (fit marker stripped) is not a
space and not `@`. -/
theorem scalarRest_head (v : NumLit) (errN : Option NumLit)
    (t : Option (Char × List Char)) (hv : numWF v) :
    ∀ c ∈ (renderNum v ++ errRender errN ++ tailRender t).head?,
      isSpaceC c = false ∧ c ≠ '@' := by
  intro c hc
  obtain ⟨c0, t0, h0⟩ : ∃ c0 t0, renderNum v = c0 :: t0 := by
    cases hrn : renderNum v with
    | nil => exact absurd hrn (renderNum_ne_nil v hv)
    | cons c0 t0 => exact ⟨c0, t0, rfl⟩
  rw [List.append_assoc, h0, List.cons_append] at hc
  have h : c0 = c := by simpa using hc
  have hcl := renderNum_head_class v hv c0 (by rw [h0]; rfl)
  rw [← h]
  rcases hcl with h1 | h1 | h1 | h1
  · exact ⟨digit_not_space c0 h1, digit_ne c0 '@' h1 (by decide)⟩
  · rw [h1]; exact ⟨by decide, by decide⟩
  · rw [h1]; exact ⟨by decide, by decide⟩
  · rw [h1]; exact ⟨by decide, by decide⟩

/-- Condition on the trailing group ensuring the scalar token carries no
trailing whitespace (so that `str.strip()` leaves it unchanged). -/
def tailStripOK (t : Option (Char × List Char)) : Prop :=
  ∀ p ∈ t,
    match p.2.getLast? with
    | some d => isSpaceC d = false
    | none => isSpaceC p.1 = false

/-- A well-formed scalar token is its own strip. -/
theorem scalar_token_strip (fit : Option (List Char)) (v : NumLit)
    (errN : Option NumLit) (t : Option (Char × List Char))
    (hv : numWF v) (he : errWF errN) (hts : tailStripOK t) :
    pyStrip (fitRender fit ++ (renderNum v ++ errRender errN ++ tailRender t)) =
      fitRender fit ++ (renderNum v ++ errRender errN ++ tailRender t) := by
  apply pyStrip_eq_self
  · intro c hc
    cases fit with
    | some ws =>
      simp only [fitRender, List.cons_append, List.head?_cons] at hc
      have h : '@' = c := by simpa using hc
      rw [← h]; decide
    | none =>
      simp only [fitRender, List.nil_append] at hc
      exact (scalarRest_head v errN t hv c hc).1
  · intro c hc
    have hR : renderNum v ++ errRender errN ++ tailRender t ≠ [] := by
      intro h
      rcases List.append_eq_nil.mp h with ⟨h1, _⟩
      rcases List.append_eq_nil.mp h1 with ⟨h2, _⟩
      exact renderNum_ne_nil v hv h2
    rw [List.getLast?_append_of_ne_nil (fitRender fit) hR] at hc
    cases t with
    | some p =>
      obtain ⟨sep, b⟩ := p
      have hok : match b.getLast? with
          | some d => isSpaceC d = false
          | none => isSpaceC sep = false := hts (sep, b) rfl
      have htr : tailRender (some (sep, b)) = sep :: b := rfl
      rw [htr] at hc
      rw [List.getLast?_append_of_ne_nil (renderNum v ++ errRender errN)
        (by simp : sep :: b ≠ [])] at hc
      cases b with
      | nil =>
        have h : sep = c := by simpa using hc
        rw [← h]
        simpa using hok
      | cons b0 bt =>
        rw [getLast?_cons_ne_nil sep (b0 :: bt) (by simp)] at hc
        obtain ⟨d, hd1, _⟩ : ∃ d, (b0 :: bt).getLast? = some d ∧ d ∈ b0 :: bt := by
          cases hg : (b0 :: bt).getLast? with
          | none => exact absurd (List.getLast?_eq_none_iff.mp hg) (by simp)
          | some d => exact ⟨d, rfl, List.mem_of_mem_getLast? hg⟩
        rw [hd1] at hc hok
        have h : d = c := by simpa using hc
        rw [← h]
        simpa using hok
    | none =>
      have htr : tailRender (none : Option (Char × List Char)) = [] := rfl
      rw [htr, List.append_nil] at hc
      cases errN with
      | some e =>
        have hwf := he e rfl
        have herr : errRender (some e) = '`' :: '_' :: renderNum e := rfl
        rw [herr] at hc
        rw [List.getLast?_append_of_ne_nil (renderNum v)
          (by simp : ('`' :: '_' :: renderNum e) ≠ [])] at hc
        rw [getLast?_cons_ne_nil _ _ (by simp),
          getLast?_cons_ne_nil _ _ (renderNum_ne_nil e hwf)] at hc
        exact digit_not_space c (renderNum_getLast_digit e hwf c hc)
      | none =>
        have herr : errRender (none : Option NumLit) = [] := rfl
        rw [herr, List.append_nil] at hc
        exact digit_not_space c (renderNum_getLast_digit v hv c hc)

theorem matchValueC_strip_scalar (s : String) (fit : Option (List Char)) (v : NumLit)
    (errN : Option NumLit) (t : Option (Char × List Char))
    (hs : s.data = fitRender fit ++ (renderNum v ++ errRender errN ++ tailRender t))
    (hf : fitWF fit) (hv : numWF v) (he : errWF errN) (ht : tailWF t)
    (hts : tailStripOK t) :
    matchValueC (pyStrip s.data) = some (fit, v, errN, t.map Prod.snd) := by
  rw [hs, scalar_token_strip fit v errN t hv he hts]
  exact matchValueC_render fit v errN t hf hv he ht

/-- `parse_value` on any well-formed fitted/fixed scalar token: the value is
the decimal literal, the error is the backquote-delimited literal (0 when
absent), and the fitted flag records the presence of the `@` marker. -/
theorem parseValue_scalar_eq (s : String) (fit : Option (List Char)) (v : NumLit)
    (errN : Option NumLit) (t : Option (Char × List Char))
    (hs : s.data = fitRender fit ++ (renderNum v ++ errRender errN ++ tailRender t))
    (hf : fitWF fit) (hv : numWF v) (he : errWF errN) (ht : tailWF t)
    (hts : tailStripOK t) :
    parseValue s = .ok ⟨pyFloatOfNum v, errFloat errN, fit.isSome, group8Text errN⟩ := by
  unfold parseValue
  rw [matchValueC_strip_scalar s fit v errN t hs hf hv he ht hts]

theorem matchValueC_cons_fail (c : Char) (l : List Char)
    (h1 : c ≠ '@') (h2 : (c = '+' || c = '-') = false)
    (h3 : c.isDigit = false) (h4 : c ≠ '.') :
    matchValueC (c :: l) = none := by
  have hnum : parseNumC (c :: l) = none := by
    rw [parseNumC_cons, if_neg (by simp [h2])]
    unfold parseNumTail
    have hTW : (c :: l).takeWhile Char.isDigit = [] := by
      simp [List.takeWhile_cons, h3]
    rw [hTW, List.length_nil, List.drop_zero]
    split
    · rename_i l3 heq
      exfalso
      injection heq with ha _
      exact h4 ha
    · rw [if_pos rfl]
  unfold matchValueC
  split
  · rename_i rest heq
    exfalso
    injection heq with ha _
    exact h1 ha
  · unfold matchValueNum
    rw [hnum]

/-! ## FRACTION_REGEX matcher lemmas -/

/-- Well-formedness of the check-number pieces `([0-9]*[.])?[0-9]+`. -/
def checkWF (chk : Option (List Char) × List Char) : Prop :=
  (∀ ds ∈ chk.1, ∀ c ∈ ds, c.isDigit = true) ∧ chk.2 ≠ [] ∧
    ∀ c ∈ chk.2, c.isDigit = true

theorem checkText_head (chk : Option (List Char) × List Char) (hc : checkWF chk) :
    ∀ c ∈ (checkText chk).head?, c.isDigit = true ∨ c = '.' := by
  obtain ⟨cds, mds⟩ := chk
  obtain ⟨h1, h2, h3⟩ := hc
  intro c hcc
  cases cds with
  | some ds =>
    cases ds with
    | nil =>
      have h : '.' = c := by simpa [checkText, ipRender] using hcc
      rw [← h]; simp
    | cons d dt =>
      have h : d = c := by simpa [checkText, ipRender] using hcc
      rw [← h]
      exact Or.inl (h1 (d :: dt) rfl d (by simp))
  | none =>
    cases mds with
    | nil => exact absurd rfl h2
    | cons m mt =>
      have h : m = c := by simpa [checkText, ipRender] using hcc
      rw [← h]
      exact Or.inl (h3 m (by simp))

theorem checkText_getLast (chk : Option (List Char) × List Char) (hc : checkWF chk) :
    ∀ c ∈ (checkText chk).getLast?, c.isDigit = true := by
  obtain ⟨cds, mds⟩ := chk
  obtain ⟨_, h2, h3⟩ := hc
  intro c hcc
  have harr : checkText (cds, mds) = ipRender cds ++ mds := rfl
  rw [harr, List.getLast?_append_of_ne_nil _ h2] at hcc
  obtain ⟨d, hd1, hd2⟩ : ∃ d, mds.getLast? = some d ∧ d ∈ mds := by
    cases hg : mds.getLast? with
    | none => exact absurd (List.getLast?_eq_none_iff.mp hg) h2
    | some d => exact ⟨d, rfl, List.mem_of_mem_getLast? hg⟩
  rw [hd1] at hcc
  have h : d = c := by simpa using hcc
  rw [← h]
  exact h3 d hd2

theorem matchCheckC_render (chk : Option (List Char) × List Char) (hc : checkWF chk) :
    matchCheckC (checkText chk) = some chk := by
  obtain ⟨cds, mds⟩ := chk
  obtain ⟨h1, h2, h3⟩ := hc
  have hmds : mds.takeWhile Char.isDigit = mds := takeWhile_all_eq _ _ h3
  cases cds with
  | some ds =>
    have hds : ∀ c ∈ ds, c.isDigit = true := h1 ds rfl
    have harr : checkText (some ds, mds) = ds ++ ('.' :: mds) := by
      simp [checkText, ipRender]
    have hTW : (ds ++ ('.' :: mds)).takeWhile Char.isDigit = ds :=
      takeWhile_app_eq _ _ _ hds
        (by intro c hcc
            have h : '.' = c := by simpa using hcc
            rw [← h]; decide)
    rw [harr]
    unfold matchCheckC
    rw [hTW, List.drop_left]
    split
    · rename_i l2 heq
      have h4 : mds = l2 := by injection heq
      subst h4
      rw [hmds, List.drop_length, if_pos (by simp [h2])]
    · rename_i h
      exact absurd rfl (h mds)
  | none =>
    have harr : checkText (none, mds) = mds := by simp [checkText, ipRender]
    rw [harr]
    unfold matchCheckC
    rw [hmds, List.drop_length]
    split
    · rename_i l2 heq
      exact absurd heq (by simp)
    · rw [if_pos (by simp [h2])]

/-- The full text of a fraction-with-check token. -/
def fracRender (nds dds ws1 ws2 : List Char) (chk : Option (List Char) × List Char) :
    List Char :=
  '=' :: (nds ++ '/' :: (dds ++ ';' :: (ws1 ++ ':' :: (ws2 ++ checkText chk))))

theorem matchFractionC_render (nds dds ws1 ws2 : List Char)
    (chk : Option (List Char) × List Char)
    (hn1 : nds ≠ []) (hn2 : ∀ c ∈ nds, c.isDigit = true)
    (hd1 : dds ≠ []) (hd2 : ∀ c ∈ dds, c.isDigit = true)
    (hd0 : ∀ c ∈ dds.head?, c ≠ '0')
    (hw1 : ∀ c ∈ ws1, isSpaceC c = true) (hw2 : ∀ c ∈ ws2, isSpaceC c = true)
    (hc : checkWF chk) :
    matchFractionC (fracRender nds dds ws1 ws2 chk) = some (nds, dds, chk) := by
  have hTWn : (nds ++ '/' :: (dds ++ ';' :: (ws1 ++ ':' :: (ws2 ++ checkText chk)))).takeWhile
      Char.isDigit = nds :=
    takeWhile_app_eq _ _ _ hn2
      (by intro c hcc
          have h : '/' = c := by simpa using hcc
          rw [← h]; decide)
  have hTWd : (dds ++ ';' :: (ws1 ++ ':' :: (ws2 ++ checkText chk))).takeWhile
      Char.isDigit = dds :=
    takeWhile_app_eq _ _ _ hd2
      (by intro c hcc
          have h : ';' = c := by simpa using hcc
          rw [← h]; decide)
  have hdw1 : (ws1 ++ ':' :: (ws2 ++ checkText chk)).dropWhile isSpaceC =
      ':' :: (ws2 ++ checkText chk) := by
    rw [dropWhile_app_all _ _ _ hw1]
    apply dropWhile_head_fail
    intro c hcc
    have h : ':' = c := by simpa using hcc
    rw [← h]; decide
  have hdw2 : (ws2 ++ checkText chk).dropWhile isSpaceC = checkText chk := by
    rw [dropWhile_app_all _ _ _ hw2]
    apply dropWhile_head_fail
    intro c hcc
    rcases checkText_head chk hc c hcc with h | h
    · exact digit_not_space c h
    · rw [h]; decide
  unfold matchFractionC fracRender
  split
  · rename_i l1 heq
    have h4 : nds ++ '/' :: (dds ++ ';' :: (ws1 ++ ':' :: (ws2 ++ checkText chk))) = l1 := by
      injection heq
    subst h4
    rw [hTWn, if_neg hn1, List.drop_left]
    split
    · rename_i l2 heq2
      have h5 : dds ++ ';' :: (ws1 ++ ':' :: (ws2 ++ checkText chk)) = l2 := by
        injection heq2
      subst h5
      cases dds with
      | nil => exact absurd rfl hd1
      | cons d0 dtl =>
        have hd0' : d0 ≠ '0' := hd0 d0 rfl
        have hd0d : d0.isDigit = true := hd2 d0 (by simp)
        rw [List.cons_append]
        split
        · rename_i d ltl heq3
          have h6 : d0 = d := by injection heq3
          rw [← h6, if_pos (by simp [hd0d, hd0'])]
          rw [← List.cons_append, hTWd, List.drop_left]
          split
          · rename_i l3 heq4
            have h7 : ws1 ++ ':' :: (ws2 ++ checkText chk) = l3 := by
              injection heq4
            subst h7
            rw [hdw1]
            split
            · rename_i l5 heq5
              have h8 : ws2 ++ checkText chk = l5 := by injection heq5
              subst h8
              rw [hdw2, matchCheckC_render chk hc]
            · rename_i h
              exact absurd rfl (h (ws2 ++ checkText chk))
          · rename_i h
            exact absurd rfl (h (ws1 ++ ':' :: (ws2 ++ checkText chk)))
        · rename_i h
          exact absurd h (by simp)
    · rename_i h
      exact absurd rfl (h (dds ++ ';' :: (ws1 ++ ':' :: (ws2 ++ checkText chk))))
  · rename_i h
    exact absurd rfl (h (nds ++ '/' :: (dds ++ ';' :: (ws1 ++ ':' :: (ws2 ++ checkText chk)))))

/-- A fraction token is its own strip. -/
theorem frac_token_strip (nds dds ws1 ws2 : List Char)
    (chk : Option (List Char) × List Char) (hc : checkWF chk) :
    pyStrip (fracRender nds dds ws1 ws2 chk) = fracRender nds dds ws1 ws2 chk := by
  apply pyStrip_eq_self
  · intro c hcc
    have h : '=' = c := by simpa [fracRender] using hcc
    rw [← h]; decide
  · intro c hcc
    have hne : checkText chk ≠ [] := by
      intro h
      obtain ⟨_, h2, _⟩ := hc
      obtain ⟨cds, mds⟩ := chk
      have harr : checkText (cds, mds) = ipRender cds ++ mds := rfl
      rw [harr] at h
      exact h2 (List.append_eq_nil.mp h).2
    simp only [fracRender] at hcc
    rw [getLast?_cons_ne_nil _ _ (by simp),
      List.getLast?_append_of_ne_nil _ (by simp : '/' :: (dds ++ ';' :: (ws1 ++ ':' :: (ws2 ++ checkText chk))) ≠ []),
      getLast?_cons_ne_nil _ _ (by simp),
      List.getLast?_append_of_ne_nil _ (by simp : ';' :: (ws1 ++ ':' :: (ws2 ++ checkText chk)) ≠ []),
      getLast?_cons_ne_nil _ _ (by simp),
      List.getLast?_append_of_ne_nil _ (by simp : ':' :: (ws2 ++ checkText chk) ≠ []),
      getLast?_cons_ne_nil _ _ (by simp [hne]),
      List.getLast?_append_of_ne_nil _ hne] at hcc
    exact digit_not_space c (checkText_getLast chk hc c hcc)

/-- `parse_value` on any well-formed fraction-with-check token. -/
theorem parseValue_fraction_eq (s : String) (nds dds ws1 ws2 : List Char)
    (chk : Option (List Char) × List Char)
    (hs : s.data = fracRender nds dds ws1 ws2 chk)
    (hn1 : nds ≠ []) (hn2 : ∀ c ∈ nds, c.isDigit = true)
    (hd1 : dds ≠ []) (hd2 : ∀ c ∈ dds, c.isDigit = true)
    (hd0 : ∀ c ∈ dds.head?, c ≠ '0')
    (hw1 : ∀ c ∈ ws1, isSpaceC c = true) (hw2 : ∀ c ∈ ws2, isSpaceC c = true)
    (hc : checkWF chk) :
    parseValue s = .ok ⟨⟨(natOfDigits nds : Int), natOfDigits dds⟩, ⟨0, 1⟩, false,
      some (String.mk (checkText chk))⟩ := by
  have hstrip : pyStrip s.data = fracRender nds dds ws1 ws2 chk := by
    rw [hs]
    exact frac_token_strip nds dds ws1 ws2 chk hc
  have hval : matchValueC (pyStrip s.data) = none := by
    rw [hstrip]
    exact matchValueC_cons_fail '=' _ (by decide) (by decide) (by decide) (by decide)
  have hfrac : matchFractionC (pyStrip s.data) = some (nds, dds, chk) := by
    rw [hstrip]
    exact matchFractionC_render nds dds ws1 ws2 chk hn1 hn2 hd1 hd2 hd0 hw1 hw2 hc
  unfold parseValue
  rw [hval, hfrac]

/-! ## measurement.py matcher lemmas -/

theorem hasPrefixL_append_self (p l : List Char) : hasPrefixL p (p ++ l) = true := by
  induction p with
  | nil => rfl
  | cons c cs ih => simp [hasPrefixL, ih]

theorem xddMatch_render (path tail0 : List Char)
    (hp1 : path ≠ []) (_hp2 : '"' ∉ path) (hp3 : '\n' ∉ path) (ht : '"' ∉ tail0) :
    xddMatch ("xdd \"".data ++ (path ++ '"' :: tail0)) = some path := by
  unfold xddMatch
  rw [if_pos (hasPrefixL_append_self _ _)]
  have h5 : ("xdd \"".data ++ (path ++ '"' :: tail0)).drop 5 = path ++ '"' :: tail0 :=
    List.drop_left "xdd \"".data (path ++ '"' :: tail0)
  rw [h5]
  have hTW : (path ++ '"' :: tail0).takeWhile (fun c => c ≠ '\n') =
      path ++ '"' :: tail0.takeWhile (fun c => c ≠ '\n') := by
    rw [takeWhile_app_all _ _ _ (by
      intro c hc
      simp only [decide_eq_true_eq]
      intro he
      exact hp3 (he ▸ hc))]
    rw [List.takeWhile_cons, if_pos (by decide)]
  rw [hTW]
  have hrev : (path ++ '"' :: tail0.takeWhile (fun c => c ≠ '\n')).reverse =
      (tail0.takeWhile (fun c => c ≠ '\n')).reverse ++ '"' :: path.reverse := by
    simp
  rw [hrev]
  have hdw : ((tail0.takeWhile (fun c => c ≠ '\n')).reverse ++
      '"' :: path.reverse).dropWhile (fun c => c ≠ '"') = '"' :: path.reverse := by
    rw [dropWhile_app_all _ _ _ (by
      intro c hc
      simp only [decide_eq_true_eq]
      intro he
      subst he
      exact ht ((List.takeWhile_sublist _).subset (List.mem_reverse.mp hc)))]
    apply dropWhile_head_fail
    intro c hc
    have h : '"' = c := by simpa using hc
    rw [← h]; decide
  rw [hdw]
  show (if path.reverse = [] then none else some path.reverse.reverse) = some path
  rw [if_neg (by simp [hp1]), List.reverse_reverse]

theorem tempSearch_render (pre ds : List Char)
    (h1 : ds ≠ []) (h2 : ∀ c ∈ ds, c.isDigit = true) :
    tempSearch (pre ++ '_' :: (ds ++ "-0_C.xy".data)) = some ds := by
  unfold tempSearch
  have hrev : (pre ++ '_' :: (ds ++ "-0_C.xy".data)).reverse =
      "-0_C.xy".data.reverse ++ (ds.reverse ++ '_' :: pre.reverse) := by
    simp
  rw [hrev, if_pos (hasPrefixL_append_self _ _)]
  have h7 : ("-0_C.xy".data.reverse ++ (ds.reverse ++ '_' :: pre.reverse)).drop 7 =
      ds.reverse ++ '_' :: pre.reverse :=
    List.drop_left "-0_C.xy".data.reverse (ds.reverse ++ '_' :: pre.reverse)
  rw [h7]
  have hTW : (ds.reverse ++ '_' :: pre.reverse).takeWhile Char.isDigit = ds.reverse :=
    takeWhile_app_eq _ _ _ (by
        intro c hc
        exact h2 c (List.mem_reverse.mp hc))
      (by intro c hc
          have h : '_' = c := by simpa using hc
          rw [← h]; decide)
  rw [hTW, if_neg (by simp [h1]), List.drop_left, List.reverse_reverse]
  rfl

theorem mem_of_mem_dropWhileZero (ds : List Char) (c : Char)
    (hc : c ∈ ds.dropWhile (fun c => c = '0')) : c ∈ ds :=
  (List.dropWhile_sublist _).subset hc

theorem parseXddCall_eq (line : String) (path : List Char)
    (hx : xddMatch line.data = some path) :
    parseXddCall line =
      (match tempSearch path with
       | none => .err (.valueError ("Could not parse temperature from " ++
           String.mk path ++
           ", expected filename to end with something like '_0024-0_C.xy' (which " ++
           "would return 24.0 for 24 degrees Celcius)"))
       | some ds => .ok (String.mk path,
           if ds.dropWhile (fun c => c = '0') = [] then ⟨0, 1⟩
           else ⟨(natOfDigits (ds.dropWhile (fun c => c = '0')) : Int), 1⟩)) := by
  unfold parseXddCall
  rw [hx]

/-- `Measurement._parse_xdd_call` on a declaration whose quoted path ends in
the temperature suffix: the path is extracted, the digit run is located, its
leading zeros stripped, an empty remainder mapped to 0.0 and a nonempty one
read as a float. -/
theorem parseXddCall_temp (line : String) (pre ds tail0 : List Char)
    (hline : line.data =
      "xdd \"".data ++ ((pre ++ '_' :: (ds ++ "-0_C.xy".data)) ++ '"' :: tail0))
    (hq : '"' ∉ pre) (hn : '\n' ∉ pre) (ht : '"' ∉ tail0)
    (h1 : ds ≠ []) (h2 : ∀ c ∈ ds, c.isDigit = true) :
    parseXddCall line = .ok (String.mk (pre ++ '_' :: (ds ++ "-0_C.xy".data)),
      if ds.dropWhile (fun c => c = '0') = [] then ⟨0, 1⟩
      else ⟨(natOfDigits (ds.dropWhile (fun c => c = '0')) : Int), 1⟩) := by
  have hpath1 : pre ++ '_' :: (ds ++ "-0_C.xy".data) ≠ [] := by simp
  have hpath2 : '"' ∉ pre ++ '_' :: (ds ++ "-0_C.xy".data) := by
    intro h
    rcases List.mem_append.mp h with h | h
    · exact hq h
    · rcases List.mem_cons.mp h with h | h
      · cases h
      · rcases List.mem_append.mp h with h | h
        · have := h2 _ h
          rw [show ('"' : Char).isDigit = false from rfl] at this
          cases this
        · revert h; decide
  have hpath3 : '\n' ∉ pre ++ '_' :: (ds ++ "-0_C.xy".data) := by
    intro h
    rcases List.mem_append.mp h with h | h
    · exact hn h
    · rcases List.mem_cons.mp h with h | h
      · cases h
      · rcases List.mem_append.mp h with h | h
        · have := h2 _ h
          rw [show ('\n' : Char).isDigit = false from rfl] at this
          cases this
        · revert h; decide
  have hx : xddMatch line.data = some (pre ++ '_' :: (ds ++ "-0_C.xy".data)) := by
    rw [hline]
    exact xddMatch_render _ tail0 hpath1 hpath2 hpath3 ht
  rw [parseXddCall_eq line _ hx, tempSearch_render pre ds h1 h2]

/-- `Measurement._parse_xdd_call` raises `ValueError` naming the expected
suffix pattern when the temperature suffix is missing. -/
theorem parseXddCall_no_temp (line : String) (path tail0 : List Char)
    (hline : line.data = "xdd \"".data ++ (path ++ '"' :: tail0))
    (hp1 : path ≠ []) (hp2 : '"' ∉ path) (hp3 : '\n' ∉ path) (ht : '"' ∉ tail0)
    (hns : tempSearch path = none) :
    parseXddCall line = .err (.valueError ("Could not parse temperature from " ++
      String.mk path ++
      ", expected filename to end with something like '_0024-0_C.xy' (which " ++
      "would return 24.0 for 24 degrees Celcius)")) := by
  have hx : xddMatch line.data = some path := by
    rw [hline]
    exact xddMatch_render path tail0 hp1 hp2 hp3 ht
  rw [parseXddCall_eq line path hx, hns]

/-! ## structure.py matcher lemmas -/

theorem parseValue_pyStrip (l : List Char) :
    parseValue (String.mk (pyStrip l)) = parseValue (String.mk l) := by
  unfold parseValue
  rw [show (String.mk (pyStrip l)).data = pyStrip l from rfl,
    show (String.mk l).data = l from rfl, pyStrip_idem]

theorem hasPrefixL_take (p l : List Char) (h : hasPrefixL p l = true) :
    l.take p.length = p := by
  induction p generalizing l with
  | nil => rfl
  | cons c cs ih =>
    cases l with
    | nil => cases h
    | cons d ds =>
      simp only [hasPrefixL, Bool.and_eq_true, decide_eq_true_eq] at h
      simp only [List.length_cons, List.take_succ_cons]
      rw [ih ds h.2, h.1]

theorem hasPrefixL_getElem (p l : List Char) (h : hasPrefixL p l = true)
    (i : Nat) (hi : i < p.length) : l[i]? = p[i]? := by
  have ht := hasPrefixL_take p l h
  have : (l.take p.length)[i]? = p[i]? := by rw [ht]
  rwa [List.getElem?_take, if_pos hi] at this

/-- A line of the shape `name(...)` with an all-alphabetic `name` never
matches the phase-name regex (whose 12-character prefix contains `_` at index
5 and no `(`). -/
theorem phasePrefix_false (name r : List Char) (hn : ∀ c ∈ name, c.isAlpha = true) :
    hasPrefixL "phase_name \"".data (name ++ '(' :: r) = false := by
  by_contra hcon
  have h : hasPrefixL "phase_name \"".data (name ++ '(' :: r) = true := by
    revert hcon
    cases hasPrefixL "phase_name \"".data (name ++ '(' :: r) <;> simp
  by_cases hlen : name.length ≤ 5
  · have h1 : (name ++ '(' :: r)[name.length]? = some '(' := by
      rw [List.getElem?_append_right (le_refl _)]
      simp
    have h2 := hasPrefixL_getElem _ _ h name.length (by
      have h12 : ("phase_name \"".data).length = 12 := rfl
      omega)
    rw [h1] at h2
    have hcases : name.length = 0 ∨ name.length = 1 ∨ name.length = 2 ∨
        name.length = 3 ∨ name.length = 4 ∨ name.length = 5 := by omega
    rcases hcases with hE | hE | hE | hE | hE | hE <;> rw [hE] at h2 <;>
      revert h2 <;> decide
  · have h5 : 5 < name.length := by omega
    have h1 : (name ++ '(' :: r)[5]? = name[5]? := List.getElem?_append_left h5
    have h2 := hasPrefixL_getElem _ _ h 5 (by
      have h12 : ("phase_name \"".data).length = 12 := rfl
      omega)
    rw [h1] at h2
    obtain ⟨hlt, he⟩ := List.getElem?_eq_some.mp
      (h2.trans (show ("phase_name \"".data)[5]? = some '_' from rfl))
    have hm : ('_' : Char) ∈ name := he ▸ List.getElem_mem hlt
    have := hn '_' hm
    cases this

/-- A line of the shape `name(...)` with an all-alphabetic `name ≠ "MVW"`
never starts with `MVW(`. -/
theorem mvwPrefix_false (name r : List Char) (hn : ∀ c ∈ name, c.isAlpha = true)
    (hne : name ≠ "MVW".data) :
    hasPrefixL "MVW(".data (name ++ '(' :: r) = false := by
  by_contra hcon
  have h : hasPrefixL "MVW(".data (name ++ '(' :: r) = true := by
    revert hcon
    cases hasPrefixL "MVW(".data (name ++ '(' :: r) <;> simp
  by_cases hlen : name.length ≤ 3
  · by_cases hlen3 : name.length = 3
    · obtain ⟨a, b, c2, hname⟩ : ∃ a b c2, name = [a, b, c2] := by
        match name, hlen3 with
        | [x, y, z], _ => exact ⟨x, y, z, rfl⟩
      subst hname
      apply hne
      have ha := hasPrefixL_getElem _ _ h 0 (by decide)
      have hb := hasPrefixL_getElem _ _ h 1 (by decide)
      have hc := hasPrefixL_getElem _ _ h 2 (by decide)
      simp only [List.cons_append, List.getElem?_cons_zero,
        List.getElem?_cons_succ] at ha hb hc
      have ha2 : a = 'M' := by
        have h0 := ha.trans (show ("MVW(".data)[0]? = some 'M' from rfl)
        simpa using h0
      have hb2 : b = 'V' := by
        have h0 := hb.trans (show ("MVW(".data)[1]? = some 'V' from rfl)
        simpa using h0
      have hc2 : c2 = 'W' := by
        have h0 := hc.trans (show ("MVW(".data)[2]? = some 'W' from rfl)
        simpa using h0
      rw [ha2, hb2, hc2]
    · have hlt : name.length < 3 := by omega
      have h1 : (name ++ '(' :: r)[name.length]? = some '(' := by
        rw [List.getElem?_append_right (le_refl _)]
        simp
      have h2 := hasPrefixL_getElem _ _ h name.length (by
        have h4 : ("MVW(".data).length = 4 := rfl
        omega)
      rw [h1] at h2
      have hcases : name.length = 0 ∨ name.length = 1 ∨ name.length = 2 := by omega
      rcases hcases with hE | hE | hE <;> rw [hE] at h2 <;> revert h2 <;> decide
  · have h4 : 3 < name.length := by omega
    have h1 : (name ++ '(' :: r)[3]? = name[3]? := List.getElem?_append_left h4
    have h2 := hasPrefixL_getElem _ _ h 3 (by
      have h4 : ("MVW(".data).length = 4 := rfl
      omega)
    rw [h1] at h2
    obtain ⟨hlt, he⟩ := List.getElem?_eq_some.mp
      (h2.trans (show ("MVW(".data)[3]? = some '(' from rfl))
    have hm : ('(' : Char) ∈ name := he ▸ List.getElem_mem hlt
    have := hn '(' hm
    cases this

theorem parenMatch_render (name inner : List Char)
    (hn1 : name ≠ []) (hn2 : ∀ c ∈ name, c.isAlpha = true) (hi : '\n' ∉ inner) :
    parenMatch (name ++ '(' :: (inner ++ [')'])) = some (String.mk name, inner) := by
  have hTW : (name ++ '(' :: (inner ++ [')'])).takeWhile Char.isAlpha = name :=
    takeWhile_app_eq _ _ _ hn2
      (by intro c hc
          have hx : '(' = c := by simpa using hc
          rw [← hx]; decide)
  unfold parenMatch
  rw [hTW, if_neg hn1, List.drop_left]
  split
  · rename_i rest heq
    have h4 : inner ++ [')'] = rest := by injection heq
    subst h4
    have hrev : (inner ++ [')']).reverse = ')' :: inner.reverse := by simp
    rw [hrev]
    split
    · rename_i contentRev heq2
      have h5 : inner.reverse = contentRev := by injection heq2
      subst h5
      rw [if_pos (by
        simp only [List.all_eq_true, decide_eq_true_eq, List.reverse_reverse]
        intro c hc he
        exact hi (he ▸ List.mem_reverse.mp hc))]
      rw [List.reverse_reverse]
    · rename_i contentRev heq2
      exfalso
      injection heq2 with hbad _
      exact absurd hbad (by decide)
    · rename_i h9 h10
      exact absurd rfl (h9 inner.reverse)
  · rename_i h
    exact absurd rfl (h (inner ++ [')']))

/-- The dispatch of `Structure._parse` on a line matching the
parenthesized-parameter regex but neither of the two earlier regexes. -/
theorem parseStructLine_paren_eq (st : Structure) (line : String) (name : String)
    (inner : List Char)
    (h1 : phaseNameMatch line.data = none) (h2 : mvwMatch line.data = none)
    (h3 : parenMatch line.data = some (name, inner)) :
    parseStructLine st line =
      (if (lookupCS name).isSome then parseCrystalSystem st name inner
       else .ok st) := by
  unfold parseStructLine
  rw [h1, h2, h3]

theorem hasKey_append (ps qs : List (String × ParamVal)) (k : String) :
    hasKey (ps ++ qs) k = (hasKey ps k || hasKey qs k) := by
  unfold hasKey
  exact List.any_append

theorem setParameter_ok (st : Structure) (k : String) (v : ParamVal)
    (h : hasKey st.params k = false) :
    setParameter st k v = .ok { st with params := st.params ++ [(k, v)] } := by
  unfold setParameter
  rw [if_neg (by simp [h])]

/-- `Structure._parse_crystal_system` for the Cubic template: the single
comma-free value is decoded and assigned to `a`, `b` and `c`. -/
theorem parseCrystalSystem_cubic (st : Structure) (v : List Char) (val : Value)
    (hnc : ',' ∉ v)
    (hk0 : hasKey st.params "crystal_system" = false)
    (hka : hasKey st.params "a" = false) (hkb : hasKey st.params "b" = false)
    (hkc : hasKey st.params "c" = false)
    (hval : parseValue (String.mk v) = .ok val) :
    parseCrystalSystem st "Cubic" v = .ok
      { st with params := st.params ++ [("crystal_system", .str "Cubic"),
        ("a", .val val), ("b", .val val), ("c", .val val)] } := by
  have hv2 : parseValue (String.mk (pyStrip v)) = .ok val := by
    rw [parseValue_pyStrip]
    exact hval
  have hsplit : splitOnChar ',' v = [v] := splitOnChar_no_sep ',' v hnc
  have hk0' : (st.params.any fun p => decide (p.1 = "crystal_system")) = false := hk0
  have hka' : (st.params.any fun p => decide (p.1 = "a")) = false := hka
  have hkb' : (st.params.any fun p => decide (p.1 = "b")) = false := hkb
  have hkc' : (st.params.any fun p => decide (p.1 = "c")) = false := hkc
  simp [parseCrystalSystem, assignSystem, assignLinked, hv2, hsplit,
    setParameter, hasKey, List.any_append, hk0', hka', hkb', hkc',
    show lookupCS "Cubic" = some ["a=b=c"] from rfl,
    show (splitOnChar '=' ("a=b=c".data)).map String.mk = ["a", "b", "c"] from rfl]

/-- The Cubic crystal-system shorthand line sets `a`, `b`, `c` to the same
decoded value. -/
theorem parseStructLine_cubic (st : Structure) (v : List Char) (val : Value)
    (hnl : '\n' ∉ v) (hnc : ',' ∉ v)
    (hk0 : hasKey st.params "crystal_system" = false)
    (hka : hasKey st.params "a" = false) (hkb : hasKey st.params "b" = false)
    (hkc : hasKey st.params "c" = false)
    (hval : parseValue (String.mk v) = .ok val) :
    parseStructLine st (String.mk ("Cubic".data ++ '(' :: (v ++ [')']))) = .ok
      { st with params := st.params ++ [("crystal_system", .str "Cubic"),
        ("a", .val val), ("b", .val val), ("c", .val val)] } := by
  have hph : phaseNameMatch ("Cubic".data ++ '(' :: (v ++ [')'])) = none := by
    unfold phaseNameMatch
    rw [phasePrefix_false _ _ (by decide)]
    simp
  have hmvw : mvwMatch ("Cubic".data ++ '(' :: (v ++ [')'])) = none := by
    unfold mvwMatch
    rw [mvwPrefix_false _ _ (by decide) (by decide)]
    simp
  have hpm : parenMatch ("Cubic".data ++ '(' :: (v ++ [')'])) = some ("Cubic", v) :=
    parenMatch_render "Cubic".data v (by decide) (by decide) hnl
  rw [parseStructLine_paren_eq st _ "Cubic" v hph hmvw hpm,
    if_pos (show (lookupCS "Cubic").isSome = true from rfl)]
  exact parseCrystalSystem_cubic st v val hnc hk0 hka hkb hkc hval

/-- A `Name(values)` line with an unrecognized all-alphabetic `Name` is
silently skipped by `Structure._parse`. -/
theorem parseStructLine_unknown_paren (st : Structure) (name inner : List Char)
    (hn1 : name ≠ []) (hn2 : ∀ c ∈ name, c.isAlpha = true)
    (hne : name ≠ "MVW".data) (hi : '\n' ∉ inner)
    (hcs : lookupCS (String.mk name) = none) :
    parseStructLine st (String.mk (name ++ '(' :: (inner ++ [')']))) = .ok st := by
  have hph : phaseNameMatch (name ++ '(' :: (inner ++ [')'])) = none := by
    unfold phaseNameMatch
    rw [phasePrefix_false _ _ hn2]
    simp
  have hmvw : mvwMatch (name ++ '(' :: (inner ++ [')'])) = none := by
    unfold mvwMatch
    rw [mvwPrefix_false _ _ hn2 hne]
    simp
  have hpm : parenMatch (name ++ '(' :: (inner ++ [')'])) =
      some (String.mk name, inner) :=
    parenMatch_render name inner hn1 hn2 hi
  rw [parseStructLine_paren_eq st _ (String.mk name) inner hph hmvw hpm]
  rw [hcs]
  rfl

/-! ## Rejection of exponents without an explicit sign -/

/-- `parse_value` rejects `<digits>e<digits>`: NUMERIC_REGEX demands a sign
inside the exponent suffix (`e[+-]\d+`), so the match stops before `e` and the
leftover `e...` fits neither the error nor the trailing group; the fraction
regex demands a leading `=`. -/
theorem parseValue_unsigned_exp (ds es : List Char)
    (h1 : ds ≠ []) (h2 : ∀ c ∈ ds, c.isDigit = true)
    (h3 : es ≠ []) (h4 : ∀ c ∈ es, c.isDigit = true) :
    parseValue (String.mk (ds ++ 'e' :: es)) =
      .err (.parsingError (String.mk (ds ++ 'e' :: es))) := by
  obtain ⟨d0, dt, hds⟩ : ∃ d0 dt, ds = d0 :: dt := by
    cases ds with
    | nil => exact absurd rfl h1
    | cons d0 dt => exact ⟨d0, dt, rfl⟩
  obtain ⟨e0, et, hes⟩ : ∃ e0 et, es = e0 :: et := by
    cases es with
    | nil => exact absurd rfl h3
    | cons e0 et => exact ⟨e0, et, rfl⟩
  subst hds
  subst hes
  have hd0 : d0.isDigit = true := h2 d0 (by simp)
  have he0 : e0.isDigit = true := h4 e0 (by simp)
  have hstrip : pyStrip ((d0 :: dt) ++ 'e' :: e0 :: et) = (d0 :: dt) ++ 'e' :: e0 :: et := by
    apply pyStrip_eq_self
    · intro c hc
      have h : d0 = c := by simpa using hc
      rw [← h]
      exact digit_not_space d0 hd0
    · intro c hc
      rw [List.getLast?_append_of_ne_nil (d0 :: dt) (by simp),
        getLast?_cons_ne_nil _ _ h3] at hc
      obtain ⟨d, hd1, hd2⟩ : ∃ d, (e0 :: et).getLast? = some d ∧ d ∈ e0 :: et := by
        cases hg : (e0 :: et).getLast? with
        | none => exact absurd (List.getLast?_eq_none_iff.mp hg) h3
        | some d => exact ⟨d, rfl, List.mem_of_mem_getLast? hg⟩
      rw [hd1] at hc
      have h : d = c := by simpa using hc
      rw [← h]
      exact digit_not_space d (h4 d hd2)
  have hexp : parseExpC ('e' :: e0 :: et) = (none, 'e' :: e0 :: et) := by
    unfold parseExpC
    split
    · rename_i c rest heq
      obtain ⟨hc1, hc2⟩ : e0 = c ∧ et = rest := by
        injection heq with ha hb
        injection hb with hc1 hc2
        exact ⟨hc1, hc2⟩
      subst hc1
      subst hc2
      rw [if_neg (by
        simp only [Bool.or_eq_true, decide_eq_true_eq]
        rintro (h | h) <;> rw [h] at he0 <;> cases he0)]
    · rename_i h
      exact absurd rfl (h e0 et)
  have hTW : ((d0 :: dt) ++ 'e' :: e0 :: et).takeWhile Char.isDigit = d0 :: dt :=
    takeWhile_app_eq _ _ _ h2
      (by intro c hc
          have h : 'e' = c := by simpa using hc
          rw [← h]; decide)
  have hnum : parseNumC ((d0 :: dt) ++ 'e' :: e0 :: et) =
      some (⟨none, none, d0 :: dt, none⟩, 'e' :: e0 :: et) := by
    rw [show (d0 :: dt) ++ 'e' :: e0 :: et = d0 :: (dt ++ 'e' :: e0 :: et) from rfl]
    rw [parseNumC_cons, if_neg (by
      simp only [Bool.or_eq_true, decide_eq_true_eq]
      rintro (h | h) <;> rw [h] at hd0 <;> cases hd0)]
    unfold parseNumTail
    rw [show d0 :: (dt ++ 'e' :: e0 :: et) = (d0 :: dt) ++ 'e' :: e0 :: et from rfl]
    rw [hTW, List.drop_left]
    split
    · rename_i l3 heq
      exfalso
      injection heq with ha _
      cases ha
    · rw [if_neg h1, hexp]
  have hmv : matchValueC ((d0 :: dt) ++ 'e' :: e0 :: et) = none := by
    unfold matchValueC
    split
    · rename_i rest heq
      exfalso
      injection heq with ha _
      rw [ha] at hd0
      cases hd0
    · unfold matchValueNum
      rw [hnum]
      show matchValueErr none ⟨none, none, d0 :: dt, none⟩ ('e' :: e0 :: et) = none
      unfold matchValueErr
      split
      · rename_i r heq
        exfalso
        injection heq with ha _
        cases ha
      · rw [matchValueEnd_cons, if_neg (by decide)]
  have hfrac : matchFractionC ((d0 :: dt) ++ 'e' :: e0 :: et) = none := by
    unfold matchFractionC
    split
    · rename_i l1 heq
      exfalso
      injection heq with ha _
      rw [ha] at hd0
      cases hd0
    · rfl
  unfold parseValue
  rw [show (String.mk ((d0 :: dt) ++ 'e' :: e0 :: et)).data =
    (d0 :: dt) ++ 'e' :: e0 :: et from rfl, hstrip, hmv, hfrac]

/-! ## r_exp loop lemmas -/

/-- The token list made of `pairs` of name/value tokens. -/
def flattenPairs : List (String × String) → List String
  | [] => []
  | (n, v) :: rest => n :: v :: flattenPairs rest

/-- The `r_exp` loop on an odd-length token list whose value positions all
parse raises `IndexError` at the dangling final name. -/
theorem rexpLoop_odd (ps : List (String × String)) :
    ∀ (params : List (String × Value)) (last : String),
      (∀ p ∈ ps, ∃ v, parseValue p.2 = .ok v) →
      rexpLoop params (flattenPairs ps ++ [last]) = .err .indexError := by
  induction ps with
  | nil => intro params last _; rfl
  | cons p rest ih =>
    intro params last h
    obtain ⟨n, v⟩ := p
    obtain ⟨val, hval⟩ := h (n, v) (by simp)
    show rexpLoop params (n :: v :: (flattenPairs rest ++ [last])) = .err .indexError
    unfold rexpLoop
    rw [hval]
    exact ih (dictInsert params n val) last (fun q hq => h q (by simp [hq]))

/-! ## Helpers for instantiating the well-formedness predicates -/

theorem optAll_none {α : Type} (P : α → Prop) : ∀ x ∈ (none : Option α), P x :=
  fun _ hx => by cases hx

theorem optAll_some {α : Type} (P : α → Prop) (a : α) (h : P a) :
    ∀ x ∈ some a, P x := fun x hx => by
  have he : a = x := by simpa using hx
  exact he ▸ h

/-! ## Claims -/

/-- C1: for every fitted-scalar token — an optional `@`-plus-whitespace fit
marker, a decimal literal, an optional backquote-underscore error literal and
an optional annotation tail — `parse_value` returns the literal's value, the
error literal's value (0.0 when the error part is absent), and a fitted flag
that is true exactly when the `@` marker is present. -/
theorem c1_fitted_scalar (s : String) (fit : Option (List Char)) (v : NumLit)
    (errN : Option NumLit) (t : Option (Char × List Char))
    (hs : s.data = fitRender fit ++ (renderNum v ++ errRender errN ++ tailRender t))
    (hf : fitWF fit) (hv : numWF v) (he : errWF errN) (ht : tailWF t)
    (hts : tailStripOK t) :
    parseValue s = .ok ⟨pyFloatOfNum v, errFloat errN, fit.isSome, group8Text errN⟩ :=
  parseValue_scalar_eq s fit v errN t hs hf hv he ht hts

theorem c1_witness :
    ("@ 1.2345`_0.001" : String).data =
      fitRender (some [' ']) ++ (renderNum ⟨none, some ['1'], ['2', '3', '4', '5'], none⟩
        ++ errRender (some ⟨none, some ['0'], ['0', '0', '1'], none⟩) ++
        tailRender none) ∧
    parseValue "@ 1.2345`_0.001" = .ok ⟨⟨12345, 10000⟩, ⟨1, 1000⟩, true, none⟩ ∧
    parseValue "1.5" = .ok ⟨⟨15, 10⟩, ⟨0, 1⟩, false, none⟩ := by
  refine ⟨by decide, ?_, ?_⟩
  · exact (c1_fitted_scalar "@ 1.2345`_0.001" (some [' '])
      ⟨none, some ['1'], ['2', '3', '4', '5'], none⟩
      (some ⟨none, some ['0'], ['0', '0', '1'], none⟩) none
      (by decide)
      (optAll_some _ _ ⟨by decide, by decide⟩)
      ⟨optAll_none _, optAll_some _ _ (by decide), ⟨by decide, by decide⟩, optAll_none _⟩
      (optAll_some _ _ ⟨optAll_none _, optAll_some _ _ (by decide),
        ⟨by decide, by decide⟩, optAll_none _⟩)
      (optAll_none _) (optAll_none _)).trans (by decide)
  · exact (c1_fitted_scalar "1.5" none
      ⟨none, some ['1'], ['5'], none⟩ none none
      (by decide)
      (optAll_none _)
      ⟨optAll_none _, optAll_some _ _ (by decide), ⟨by decide, by decide⟩, optAll_none _⟩
      (optAll_none _) (optAll_none _) (optAll_none _)).trans (by decide)

/-- C2: for every fraction-with-check token — equality marker, integer
numerator, slash, positive integer denominator, `;`-whitespace-`:` separator
and a decimal check number — `parse_value` returns the exact quotient
numerator/denominator with error 0.0 and fitted false, and stores the check
text as the constraint annotation without using it for the value. -/
theorem c2_fraction (s : String) (nds dds ws1 ws2 : List Char)
    (chk : Option (List Char) × List Char)
    (hs : s.data = fracRender nds dds ws1 ws2 chk)
    (hn1 : nds ≠ []) (hn2 : ∀ c ∈ nds, c.isDigit = true)
    (hd1 : dds ≠ []) (hd2 : ∀ c ∈ dds, c.isDigit = true)
    (hd0 : ∀ c ∈ dds.head?, c ≠ '0')
    (hw1 : ∀ c ∈ ws1, isSpaceC c = true) (hw2 : ∀ c ∈ ws2, isSpaceC c = true)
    (hc : checkWF chk) :
    parseValue s = .ok ⟨⟨(natOfDigits nds : Int), natOfDigits dds⟩, ⟨0, 1⟩, false,
      some (String.mk (checkText chk))⟩ :=
  parseValue_fraction_eq s nds dds ws1 ws2 chk hs hn1 hn2 hd1 hd2 hd0 hw1 hw2 hc

theorem c2_witness :
    ("=1/3; :  0.33333" : String).data =
      fracRender ['1'] ['3'] [' '] [' ', ' '] (some ['0'], ['3', '3', '3', '3', '3']) ∧
    parseValue "=1/3; :  0.33333" = .ok ⟨⟨1, 3⟩, ⟨0, 1⟩, false, some "0.33333"⟩ := by
  refine ⟨by decide, ?_⟩
  exact (c2_fraction "=1/3; :  0.33333" ['1'] ['3'] [' '] [' ', ' ']
    (some ['0'], ['3', '3', '3', '3', '3'])
    (by decide) (by decide) (by decide) (by decide) (by decide)
    (optAll_some _ _ (by decide)) (by decide) (by decide)
    ⟨optAll_some _ _ (by decide), by decide, by decide⟩).trans (by decide)

/-- C3: the measurement declaration parser extracts the quoted path; when the
path ends in `_<digits>-0_C.xy` the temperature is the digit run with leading
zeros stripped (0.0 when nothing remains, otherwise its float value), and when
the temperature suffix does not match, construction fails with an error naming
the expected pattern. -/
theorem c3_temperature :
    (∀ (line : String) (pre ds tail0 : List Char),
      line.data = "xdd \"".data ++
        ((pre ++ '_' :: (ds ++ "-0_C.xy".data)) ++ '"' :: tail0) →
      '"' ∉ pre → '\n' ∉ pre → '"' ∉ tail0 → ds ≠ [] →
      (∀ c ∈ ds, c.isDigit = true) →
      parseXddCall line = .ok (String.mk (pre ++ '_' :: (ds ++ "-0_C.xy".data)),
        if ds.dropWhile (fun c => c = '0') = [] then ⟨0, 1⟩
        else ⟨(natOfDigits (ds.dropWhile (fun c => c = '0')) : Int), 1⟩)) ∧
    (∀ (line : String) (path tail0 : List Char),
      line.data = "xdd \"".data ++ (path ++ '"' :: tail0) →
      path ≠ [] → '"' ∉ path → '\n' ∉ path → '"' ∉ tail0 →
      tempSearch path = none →
      parseXddCall line = .err (.valueError ("Could not parse temperature from " ++
        String.mk path ++
        ", expected filename to end with something like '_0024-0_C.xy' (which " ++
        "would return 24.0 for 24 degrees Celcius)"))) := by
  constructor
  · intro line pre ds tail0 hline hq hn ht h1 h2
    exact parseXddCall_temp line pre ds tail0 hline hq hn ht h1 h2
  · intro line path tail0 hline hp1 hp2 hp3 ht hns
    exact parseXddCall_no_temp line path tail0 hline hp1 hp2 hp3 ht hns

theorem c3_witness :
    parseXddCall "xdd \"file_0024-0_C.xy\"" = .ok ("file_0024-0_C.xy", ⟨24, 1⟩) ∧
    parseXddCall "xdd \"file_0000-0_C.xy\"" = .ok ("file_0000-0_C.xy", ⟨0, 1⟩) ∧
    parseXddCall "xdd \"file.xy\"" = .err (.valueError
      ("Could not parse temperature from file.xy, expected filename to end with " ++
       "something like '_0024-0_C.xy' (which would return 24.0 for 24 degrees " ++
       "Celcius)")) := by
  refine ⟨?_, ?_, ?_⟩
  · exact (c3_temperature.1 "xdd \"file_0024-0_C.xy\"" "file".data
      ['0', '0', '2', '4'] [] (by decide) (by decide) (by decide) (by decide)
      (by decide) (by decide)).trans (by decide)
  · exact (c3_temperature.1 "xdd \"file_0000-0_C.xy\"" "file".data
      ['0', '0', '0', '0'] [] (by decide) (by decide) (by decide) (by decide)
      (by decide) (by decide)).trans (by decide)
  · exact (c3_temperature.2 "xdd \"file.xy\"" "file.xy".data [] (by decide)
      (by decide) (by decide) (by decide) (by decide) (by decide)).trans (by decide)

/-- C4: a structure block consumed to the end without a phase-name declaration
raises `MissingInformationError("phase_name")`; a structure state that has a
phase name and every required parameter except `mass_fraction` fails the
end-of-block completeness check with
`MissingInformationError("mass_fraction")`. -/
theorem c4_missing_information :
    (∀ (q : List String) (st : Structure) (rest : List String),
      parseStructLoop ⟨"", [], []⟩ q = .ok (st, rest) → st.phase_name = "" →
      parseStructure q = .err (.missingInformation "phase_name")) ∧
    (∀ st : Structure, st.phase_name ≠ "" →
      hasKey st.params "r_bragg" = true → hasKey st.params "molar_mass" = true →
      hasKey st.params "cell_volume" = true →
      hasKey st.params "mass_fraction" = false →
      parseStructureFrom st [] = .err (.missingInformation "mass_fraction")) := by
  constructor
  · intro q st rest h1 h2
    unfold parseStructure parseStructureFrom
    simp only [h1]
    rw [if_pos h2]
  · intro st h0 h1 h2 h3 h4
    simp [parseStructureFrom, parseStructLoop, REQUIRED_PARAMS, List.find?,
      h0, h1, h2, h3, h4]

theorem c4_witness :
    parseStructLoop ⟨"", [], []⟩ ["\t\tfoo bar"] = .ok (⟨"", [], []⟩, []) ∧
    parseStructure ["\t\tfoo bar"] = .err (.missingInformation "phase_name") ∧
    parseStructureFrom ⟨"X", [("r_bragg", .val ⟨⟨1, 1⟩, ⟨0, 1⟩, false, none⟩),
      ("molar_mass", .val ⟨⟨1, 1⟩, ⟨0, 1⟩, false, none⟩),
      ("cell_volume", .val ⟨⟨1, 1⟩, ⟨0, 1⟩, false, none⟩)], []⟩ [] =
      .err (.missingInformation "mass_fraction") := by
  refine ⟨by decide, ?_, ?_⟩
  · exact c4_missing_information.1 ["\t\tfoo bar"] ⟨"", [], []⟩ [] (by decide)
      (by decide)
  · exact c4_missing_information.2 _ (by decide) (by decide) (by decide) (by decide)
      (by decide)

/-- C5: assigning a parameter key that is already present in a structure's
params raises `DuplicatedParameterError` carrying that key; in particular a
block assigning `r_bragg` twice raises `DuplicatedParameterError("r_bragg")`. -/
theorem c5_duplicated_parameter :
    (∀ (st : Structure) (name : String) (v : ParamVal),
      hasKey st.params name = true →
      setParameter st name v = .err (.duplicatedParameter name)) ∧
    parseStructure ["\t\tr_bragg 1.0", "\t\tr_bragg 2.0"] =
      .err (.duplicatedParameter "r_bragg") := by
  constructor
  · intro st name v h
    unfold setParameter
    rw [if_pos h]
  · decide

theorem c5_witness :
    hasKey [("r_bragg", ParamVal.val ⟨⟨1, 1⟩, ⟨0, 1⟩, false, none⟩)] "r_bragg"
      = true ∧
    setParameter ⟨"", [("r_bragg", .val ⟨⟨1, 1⟩, ⟨0, 1⟩, false, none⟩)], []⟩
      "r_bragg" (.str "x") = .err (.duplicatedParameter "r_bragg") :=
  ⟨by decide, c5_duplicated_parameter.1
    ⟨"", [("r_bragg", .val ⟨⟨1, 1⟩, ⟨0, 1⟩, false, none⟩)], []⟩ "r_bragg"
    (.str "x") (by decide)⟩

/-- C6: a Cubic crystal-system shorthand line carrying one decodable value
sets `a`, `b` and `c` to the same decoded `Value`, so `a == b == c == V`. -/
theorem c6_cubic_shared (st : Structure) (v : List Char) (val : Value)
    (hnl : '\n' ∉ v) (hnc : ',' ∉ v)
    (hk0 : hasKey st.params "crystal_system" = false)
    (hka : hasKey st.params "a" = false) (hkb : hasKey st.params "b" = false)
    (hkc : hasKey st.params "c" = false)
    (hval : parseValue (String.mk v) = .ok val) :
    parseStructLine st (String.mk ("Cubic".data ++ '(' :: (v ++ [')']))) = .ok
      { st with params := st.params ++ [("crystal_system", .str "Cubic"),
        ("a", .val val), ("b", .val val), ("c", .val val)] } :=
  parseStructLine_cubic st v val hnl hnc hk0 hka hkb hkc hval

theorem c6_witness :
    parseValue "1.5" = .ok ⟨⟨15, 10⟩, ⟨0, 1⟩, false, none⟩ ∧
    parseStructLine ⟨"", [], []⟩ "Cubic(1.5)" = .ok ⟨"",
      [("crystal_system", .str "Cubic"),
       ("a", .val ⟨⟨15, 10⟩, ⟨0, 1⟩, false, none⟩),
       ("b", .val ⟨⟨15, 10⟩, ⟨0, 1⟩, false, none⟩),
       ("c", .val ⟨⟨15, 10⟩, ⟨0, 1⟩, false, none⟩)], []⟩ := by
  refine ⟨by decide, ?_⟩
  rw [(by decide : ("Cubic(1.5)" : String) =
    String.mk ("Cubic".data ++ '(' :: ("1.5".data ++ [')'])))]
  exact (c6_cubic_shared ⟨"", [], []⟩ "1.5".data ⟨⟨15, 10⟩, ⟨0, 1⟩, false, none⟩
    (by decide) (by decide) (by decide) (by decide) (by decide) (by decide)
    (by decide)).trans (by decide)

/-- C7 counterexample: a structure-level line `Foo(1.0)` with the unrecognized
name `Foo` does not raise a parse error — the line is skipped silently, the
state is unchanged, and parsing the one-line block ends with the unrelated
`phase_name` completeness error. -/
theorem c7_counterexample :
    parseStructLine ⟨"", [], []⟩ "Foo(1.0)" = .ok ⟨"", [], []⟩ ∧
    parseStructure ["\t\tFoo(1.0)"] = .err (.missingInformation "phase_name") := by
  constructor <;> decide

/-- C7 (amended): `Structure._parse` silently skips a `Name(values)` line
whose all-alphabetic `Name` is not a recognized crystal system (leaving the
state unchanged); the unknown-system hard error exists only inside
`Structure._parse_crystal_system`, which `Structure._parse` calls solely for
recognized names. -/
theorem c7_unknown_system :
    (∀ (st : Structure) (name inner : List Char),
      name ≠ [] → (∀ c ∈ name, c.isAlpha = true) → name ≠ "MVW".data →
      '\n' ∉ inner → lookupCS (String.mk name) = none →
      parseStructLine st (String.mk (name ++ '(' :: (inner ++ [')']))) = .ok st) ∧
    (∀ (st : Structure) (cs : String) (vs : List Char), lookupCS cs = none →
      parseCrystalSystem st cs vs =
        .err (.valueError ("crystal system '" ++ cs ++ "' is not available"))) := by
  constructor
  · intro st name inner hn1 hn2 hne hi hcs
    exact parseStructLine_unknown_paren st name inner hn1 hn2 hne hi hcs
  · intro st cs vs h
    unfold parseCrystalSystem
    rw [h]

theorem c7_witness :
    parseStructLine ⟨"X", [], []⟩ "Bar(2.0)" = .ok ⟨"X", [], []⟩ ∧
    parseCrystalSystem ⟨"", [], []⟩ "Quux" "1.0".data =
      .err (.valueError "crystal system 'Quux' is not available") := by
  constructor
  · rw [(by decide : ("Bar(2.0)" : String) =
      String.mk ("Bar".data ++ '(' :: ("2.0".data ++ [')'])))]
    exact c7_unknown_system.1 ⟨"X", [], []⟩ "Bar".data "2.0".data (by decide)
      (by decide) (by decide) (by decide) (by decide)
  · exact (c7_unknown_system.2 ⟨"", [], []⟩ "Quux" "1.0".data (by decide)).trans
      (by decide)

/-- C8 counterexample: an unparseable measurement declaration raises a plain
`ValueError`, not the `ParsingError` class, refuting the claim that every
grammar-mismatch failure raises the ParseError kind. -/
theorem c8_counterexample :
    parseXddCall "nonsense" =
      .err (.valueError "Could not parse .xy filename from nonsense") ∧
    Err.isParsingError (.valueError "Could not parse .xy filename from nonsense")
      = false := by
  constructor <;> decide

/-- C8 (amended): only the value-token mismatch raises `ParsingError` (carrying
the stripped token); the measurement-declaration, atom-site,
unknown-crystal-system, value-count-mismatch and parameter-without-value
failures raise plain `ValueError`; the declaration and atom-site messages embed
the offending raw text, the others name only the parameter or system. -/
theorem c8_error_kinds :
    (∀ s : String, matchValueC (pyStrip s.data) = none →
      matchFractionC (pyStrip s.data) = none →
      parseValue s = .err (.parsingError (String.mk (pyStrip s.data)))) ∧
    (∀ line : String, xddMatch line.data = none →
      parseXddCall line =
        .err (.valueError ("Could not parse .xy filename from " ++ line))) ∧
    (∀ s : String, atomMatch s.data = none →
      parseAtom s = .err (.valueError ("Could not parse atom line " ++ s))) ∧
    (∀ (st : Structure) (cs : String) (vs : List Char), lookupCS cs = none →
      parseCrystalSystem st cs vs =
        .err (.valueError ("crystal system '" ++ cs ++ "' is not available"))) ∧
    (∀ (st : Structure) (cs : String) (tmpl : List String) (vs : List Char),
      lookupCS cs = some tmpl → hasKey st.params "crystal_system" = false →
      ((splitOnChar ',' vs).map pyStrip).length ≠ tmpl.length →
      parseCrystalSystem st cs vs = .err (.valueError ("number of parsed values (" ++
        toString ((splitOnChar ',' vs).map pyStrip).length ++
        ") and of values required for crystalsystem '" ++ cs ++ "' (" ++
        toString tmpl.length ++ ") do not match"))) ∧
    (∀ (st : Structure) (w : String), w ∈ NUMERICAL_PARAMS →
      parseStructLine st w =
        .err (.valueError ("found parameter " ++ w ++ " without value"))) := by
  refine ⟨?_, ?_, ?_, ?_, ?_, ?_⟩
  · intro s h1 h2
    unfold parseValue
    rw [h1, h2]
  · intro line h
    unfold parseXddCall
    rw [h]
  · intro s h
    unfold parseAtom
    rw [h]
  · intro st cs vs h
    unfold parseCrystalSystem
    rw [h]
  · intro st cs tmpl vs hcs hk hlen
    unfold parseCrystalSystem
    simp only [hcs, setParameter_ok st "crystal_system" (.str cs) hk]
    rw [if_pos hlen]
  · intro st w hw
    fin_cases hw <;> rfl

theorem c8_witness :
    parseValue "xx" = .err (.parsingError "xx") ∧
    parseXddCall "bad" = .err (.valueError "Could not parse .xy filename from bad") ∧
    parseAtom "site" = .err (.valueError "Could not parse atom line site") ∧
    parseCrystalSystem ⟨"", [], []⟩ "Foo" "1".data =
      .err (.valueError "crystal system 'Foo' is not available") ∧
    parseCrystalSystem ⟨"", [], []⟩ "Tetragonal" "1.0, 2.0, 3.0".data =
      .err (.valueError ("number of parsed values (3) and of values required " ++
        "for crystalsystem 'Tetragonal' (2) do not match")) ∧
    parseStructLine ⟨"", [], []⟩ "scale" =
      .err (.valueError "found parameter scale without value") := by
  refine ⟨?_, ?_, ?_, ?_, ?_, ?_⟩
  · exact (c8_error_kinds.1 "xx" (by decide) (by decide)).trans (by decide)
  · exact (c8_error_kinds.2.1 "bad" (by decide)).trans (by decide)
  · exact (c8_error_kinds.2.2.1 "site" (by decide)).trans (by decide)
  · exact (c8_error_kinds.2.2.2.1 ⟨"", [], []⟩ "Foo" "1".data (by decide)).trans
      (by decide)
  · exact (c8_error_kinds.2.2.2.2.1 ⟨"", [], []⟩ "Tetragonal" ["a=b", "c"]
      "1.0, 2.0, 3.0".data (by decide) (by decide) (by decide)).trans (by decide)
  · exact (c8_error_kinds.2.2.2.2.2 ⟨"", [], []⟩ "scale" (by decide)).trans
      (by decide)

/-- C9 counterexample: `parse_value` rejects the exponent literal `1e5` with a
`ParsingError` instead of accepting it with value 100000, because the exponent
group of NUMERIC_REGEX requires an explicit sign. -/
theorem c9_counterexample :
    parseValue "1e5" = .err (.parsingError "1e5") := by decide

/-- C9 (amended): the scalar position accepts an optional sign, digits with an
optional single decimal point, and an optional exponent whose sign is
mandatory (`e[+-]\d+`); a digits-`e`-digits literal without the exponent sign
is rejected with `ParsingError`, and the fraction-check position accepts only
an unsigned decimal without any exponent. -/
theorem c9_numeric_grammar :
    (∀ (s : String) (v : NumLit), s.data = renderNum v → numWF v →
      parseValue s = .ok ⟨pyFloatOfNum v, ⟨0, 1⟩, false, none⟩) ∧
    (∀ ds es : List Char, ds ≠ [] → (∀ c ∈ ds, c.isDigit = true) →
      es ≠ [] → (∀ c ∈ es, c.isDigit = true) →
      parseValue (String.mk (ds ++ 'e' :: es)) =
        .err (.parsingError (String.mk (ds ++ 'e' :: es)))) ∧
    parseValue "=1/2; : 5e+1" = .err (.parsingError "=1/2; : 5e+1") := by
  refine ⟨?_, ?_, by decide⟩
  · intro s v hs hv
    exact parseValue_scalar_eq s none v none none
      (by rw [hs]; simp [fitRender, errRender, tailRender]) (optAll_none _) hv
      (optAll_none _) (optAll_none _) (optAll_none _)
  · intro ds es h1 h2 h3 h4
    exact parseValue_unsigned_exp ds es h1 h2 h3 h4

theorem c9_witness :
    ("1e+5" : String).data = renderNum ⟨none, none, ['1'], some ('+', ['5'])⟩ ∧
    parseValue "1e+5" = .ok ⟨⟨100000, 1⟩, ⟨0, 1⟩, false, none⟩ ∧
    parseValue "2e7" = .err (.parsingError "2e7") := by
  refine ⟨by decide, ?_, ?_⟩
  · exact (c9_numeric_grammar.1 "1e+5" ⟨none, none, ['1'], some ('+', ['5'])⟩
      (by decide)
      ⟨optAll_none _, optAll_none _, ⟨by decide, by decide⟩,
        optAll_some _ _ ⟨by decide, by decide, by decide⟩⟩).trans (by decide)
  · exact (c9_numeric_grammar.2.1 ['2'] ['7'] (by decide) (by decide) (by decide)
      (by decide)).trans (by decide)

/-- C10 counterexample: the measurement-level line `\tr_exp a b` splits into an
odd number of tokens, yet the parser raises `ParsingError` (from the malformed
value token `a`), not `IndexError`. -/
theorem c10_counterexample :
    parseMeasurement "xdd \"f_1-0_C.xy\"" ["\tr_exp a b"] =
      .err (.parsingError "a") := by decide

/-- C10 (amended): a measurement-level `r_exp` line whose stripped content
splits into an odd number of tokens makes the parser raise an unguarded
`IndexError` at the final name token, provided every value token read before
it parses as a `Value`; a malformed earlier value token raises `ParsingError`
first. -/
theorem c10_odd_rexp :
    (∀ (ps : List (String × String)) (params : List (String × Value)) (last : String),
      (∀ p ∈ ps, ∃ v, parseValue p.2 = .ok v) →
      rexpLoop params (flattenPairs ps ++ [last]) = .err .indexError) ∧
    parseMeasurement "xdd \"f_1-0_C.xy\"" ["\tr_exp 1.0 x"] = .err .indexError := by
  constructor
  · intro ps params last h
    exact rexpLoop_odd ps params last h
  · decide

theorem c10_witness :
    (∃ v, parseValue "1.0" = .ok v) ∧
    rexpLoop [] (flattenPairs [("r_exp", "1.0")] ++ ["x"]) = .err .indexError := by
  constructor
  · exact ⟨⟨⟨10, 10⟩, ⟨0, 1⟩, false, none⟩, by decide⟩
  · exact c10_odd_rexp.1 [("r_exp", "1.0")] [] "x" (by
      intro p hp
      have hp2 : p = ("r_exp", "1.0") := by simpa using hp
      rw [hp2]
      exact ⟨⟨⟨10, 10⟩, ⟨0, 1⟩, false, none⟩, by decide⟩)

end Xrpd
